import Mathlib

/-!
Verification of the SPICE-style circuit simulator (`biancanev/SemiconductorDesign`)
against its natural-language specification.

The development shallowly embeds the C++ sources:

* `src/parser/spice_parser.cpp` — tokenizer, engineering-suffix value parsing
  (`SPICEParser::parseValue`), component-line dispatch
  (`SPICEParser::parseComponent`) and the element constructors it calls;
* `src/parser/circuit_element.h` — the component classes and their pin lists;
* `src/circuit_manager.h` — the schematic connectivity manager
  (`connectPins`, `connectToGround`, `mergeNodes`, `groundNode`, `addComponent`);
* `src/simulation/dc_analysis.cpp` — MNA sizing, device stamps and the
  guarded `addMatrixEntry`;
* `src/simulation/transient_analysis.cpp` — the backward-Euler transient loop
  with its per-step Gaussian elimination.

C++ `double` arithmetic is modelled by exact rational arithmetic.  To keep every
definition kernel-executable the rationals are represented by the explicit
fraction type `Frac` below (numerator/denominator pairs of integers, positive
denominator by construction); `Frac.toRat` maps a fraction to Mathlib's `ℚ`
where a statement is more natural on the value level.
-/

/-- An executable rational: an integer numerator and denominator.  Every
operation below keeps the denominator positive, so `blt` (cross multiplication)
is the rational order on all values produced by the embedding. -/
structure Frac where
  num : Int
  den : Int
deriving DecidableEq

/-- The rational value of a fraction. -/
def Frac.toRat (q : Frac) : ℚ := (q.num : ℚ) / (q.den : ℚ)

def Frac.ofInt (n : Int) : Frac := ⟨n, 1⟩

def Frac.add (a b : Frac) : Frac := ⟨a.num * b.den + b.num * a.den, a.den * b.den⟩

def Frac.sub (a b : Frac) : Frac := ⟨a.num * b.den - b.num * a.den, a.den * b.den⟩

def Frac.mul (a b : Frac) : Frac := ⟨a.num * b.num, a.den * b.den⟩

def Frac.neg (a : Frac) : Frac := ⟨-a.num, a.den⟩

/-- Division, normalising the sign into the numerator so the denominator stays
positive. -/
def Frac.div (a b : Frac) : Frac :=
  if 0 ≤ b.num then ⟨a.num * b.den, a.den * b.num⟩
  else ⟨-(a.num * b.den), a.den * (-b.num)⟩

/-- `|·|` on fractions (denominators are positive by construction). -/
def Frac.fabs (a : Frac) : Frac := ⟨(a.num.natAbs : Int), a.den⟩

/-- Strict order by cross multiplication (sound for positive denominators). -/
def Frac.blt (a b : Frac) : Bool := decide (a.num * b.den < b.num * a.den)

instance : Add Frac := ⟨Frac.add⟩

instance : Sub Frac := ⟨Frac.sub⟩

instance : Mul Frac := ⟨Frac.mul⟩

instance : Div Frac := ⟨Frac.div⟩

instance : Neg Frac := ⟨Frac.neg⟩

instance (n : Nat) : OfNat Frac n := ⟨⟨(n : Int), 1⟩⟩

/-- `0.0`. -/
def fZero : Frac := ⟨0, 1⟩

/-- `1.0`. -/
def fOne : Frac := ⟨1, 1⟩

/-- ASCII `::tolower`, as applied by the parser via `std::transform`/`std::tolower`. -/
def asciiToLower (c : Char) : Char :=
  if 'A' ≤ c ∧ c ≤ 'Z' then Char.ofNat (c.toNat + 32) else c

/-- Case-fold a whole string (`std::transform(..., ::tolower)`). -/
def lowerString (s : String) : String := String.mk (s.data.map asciiToLower)

/-- ASCII decimal digit test (`isdigit` inside `strtod`). -/
def isAsciiDigit (c : Char) : Bool := decide ('0' ≤ c ∧ c ≤ '9')

/-- The whitespace characters skipped by `strtod` before the number. -/
def isSpaceChar (c : Char) : Bool :=
  c = ' ' ∨ c = '\t' ∨ c = '\n' ∨ c = '\r' ∨ c = '\x0b' ∨ c = '\x0c'

/-- Numeric value of a digit string (most significant first). -/
def digitsVal (ds : List Char) : Nat :=
  ds.foldl (fun n c => 10 * n + (c.toNat - 48)) 0

/-- Split a character list into its leading run of digits and the rest. -/
def spanDigits (cs : List Char) : List Char × List Char :=
  (cs.takeWhile isAsciiDigit, cs.dropWhile isAsciiDigit)

/-- `10^e` for an integer exponent, as an executable fraction. -/
def pow10 (e : Int) : Frac :=
  if 0 ≤ e then ⟨(10 : Int) ^ e.toNat, 1⟩ else ⟨1, (10 : Int) ^ (-e).toNat⟩

/-- Exponent part of `strtod`: `e`/`E`, an optional sign, then digits.  The
exponent is consumed only when at least one digit follows, otherwise `strtod`
stops before the `e`; in both cases the numeric exponent contributed is the
value returned here. -/
def stodExpVal (cs : List Char) : Int :=
  let digVal : List Char → Option Int := fun u =>
    let ds := u.takeWhile isAsciiDigit
    if ds.isEmpty then none else some (digitsVal ds : Int)
  match cs with
  | 'e' :: t | 'E' :: t =>
    (match t with
     | '+' :: u => (digVal u).getD 0
     | '-' :: u => (match digVal u with | some v => -v | none => 0)
     | u => (digVal u).getD 0)
  | _ => 0

/-- `std::stod` on the decimal grammar: optional sign, digits with an optional
decimal point (at least one digit overall), optional exponent.  Returns `none`
exactly when no conversion can be performed (then `std::stod` throws, which
`parseValue` catches).  Longest-prefix semantics: trailing garbage after a valid
number is ignored.  Hexadecimal floats and the `inf`/`nan` forms, which never
occur in netlist values, are not modelled. -/
def stodCore (cs : List Char) : Option Frac :=
  let sgncs : Int × List Char :=
    match cs with
    | '-' :: t => (-1, t)
    | '+' :: t => (1, t)
    | _ => (1, cs)
  let sgn := sgncs.1
  let body := sgncs.2
  let ipRest := spanDigits body
  let ip := ipRest.1
  let fpRest : List Char × List Char :=
    match ipRest.2 with
    | '.' :: t => spanDigits t
    | r => ([], r)
  let fp := fpRest.1
  if ip.isEmpty ∧ fp.isEmpty then none
  else
    let e := stodExpVal fpRest.2
    let mant : Frac :=
      ⟨sgn * ((digitsVal ip : Int) * (10 : Int) ^ fp.length + (digitsVal fp : Int)),
       (10 : Int) ^ fp.length⟩
    some (Frac.mul mant (pow10 e))

/-- `std::stod` including the leading-whitespace skip. -/
def stod (s : String) : Option Frac := stodCore (s.data.dropWhile isSpaceChar)

/-- Outcome of `SPICEParser::parseValue`: the returned `double` together with
whether the `catch` branch printed its `Error parsing value` diagnostic (the
function always returns a value; the flag records the only observable failure
signal). -/
structure PVResult where
  value : Frac
  errored : Bool
deriving DecidableEq

/-- The `switch (lastChar)` of `SPICEParser::parseValue`: the multiplier chosen
for the last character of the (case-folded) string, and the remaining string
after the suffix characters are removed.  Faithful to the source: the `meg`
test lives inside `case 'm'`, i.e. it is only reached when the *last* character
is `m`. -/
def suffixSplit (cs : List Char) : Frac × List Char :=
  match cs.getLast? with
  | none => (fOne, cs)
  | some c =>
    if c = 't' then (⟨1000000000000, 1⟩, cs.dropLast)
    else if c = 'g' then (⟨1000000000, 1⟩, cs.dropLast)
    else if c = 'k' then (⟨1000, 1⟩, cs.dropLast)
    else if c = 'm' then
      if 3 ≤ cs.length ∧ cs.drop (cs.length - 3) = ['m', 'e', 'g'] then
        (⟨1000000, 1⟩, cs.take (cs.length - 3))
      else (⟨1, 1000⟩, cs.dropLast)
    else if c = 'u' then (⟨1, 1000000⟩, cs.dropLast)
    else if c = 'n' then (⟨1, 1000000000⟩, cs.dropLast)
    else if c = 'p' then (⟨1, 1000000000000⟩, cs.dropLast)
    else if c = 'f' then (⟨1, 1000000000000000⟩, cs.dropLast)
    else (fOne, cs)

/-- `SPICEParser::parseValue`: empty input returns `0.0` silently; otherwise the
string is case-folded, the engineering suffix (switch on the last character) is
stripped, and `std::stod` parses the remainder; a `std::stod` failure is caught,
reported, and `0.0` is returned. -/
def parseValue (s : String) : PVResult :=
  if s.isEmpty then ⟨fZero, false⟩
  else
    let cs := s.data.map asciiToLower
    let ms := suffixSplit cs
    match stod (String.mk ms.2) with
    | some v => ⟨Frac.mul v ms.1, false⟩
    | none => ⟨fZero, true⟩

/-! ## Circuit elements (`src/parser/circuit_element.h`)

Each concrete `CircuitElement` subclass is a record tag here.  All two-terminal
classes (`Resistor`, `Capacitor`, `Inductor`, `VoltageSource`) store their
single `double` parameter in the same slot directly after the common base, so
the `static_cast`s the analysis engines perform on a mistagged object read that
shared slot; the embedding models it as the `value` field.  Pin render offsets
and positions are GUI-only data with no effect on connectivity or stamping and
are not carried. -/

inductive ElemTag
  | resistor | capacitor | inductor | vsource | diode
  | nmosfet | pmosfet | ground | opamp | npn
deriving DecidableEq

/-- A `CircuitElement`: name, dynamic type tag, the single numeric parameter
(`r`/`c`/`l`/`v`), the model string (diode/MOSFET), and the `node_id` of each
pin in pin order. -/
structure Element where
  name : String
  tag : ElemTag
  value : Frac
  model : String
  pins : List Int
deriving DecidableEq

/-- `CircuitElement::getType`. -/
def ElemTag.typeName : ElemTag → String
  | .resistor => "resistor"
  | .capacitor => "capacitor"
  | .inductor => "inductor"
  | .vsource => "vsource"
  | .diode => "diode"
  | .nmosfet => "nmosfet"
  | .pmosfet => "pmosfet"
  | .ground => "ground"
  | .opamp => "opamp"
  | .npn => "npn"

/-- `CircuitElement::getNodeForPin`: `-1` for an out-of-range pin index. -/
def Element.nodeForPin (e : Element) (i : Int) : Int :=
  if 0 ≤ i ∧ i < (e.pins.length : Int) then e.pins.getD i.toNat (-1) else -1

/-- `CircuitElement::setNodeForPin` — the (non-virtual) base-class method: it
writes the pin unconditionally when the index is in range.  `Ground` declares a
shadowing method of the same name, but every call in `circuit_manager.h` goes
through a `CircuitElement*`, so this base version is the one that runs. -/
def Element.setNodeForPin (e : Element) (i : Int) (node : Int) : Element :=
  if 0 ≤ i ∧ i < (e.pins.length : Int) then
    { e with pins := e.pins.set i.toNat node }
  else e

/-- `CircuitElement::getPinCount`. -/
def Element.pinCount (e : Element) : Int := (e.pins.length : Int)

/-! ## Netlist parser (`src/parser/spice_parser.cpp`) -/

/-- `SPICEParser` state: the element list, the node-name map and the node
counter.  `parseFile` seeds the map with `0`/`gnd`/`ground` ↦ 0 and starts
`numNodes` at 1. -/
structure ParserState where
  elements : List Element
  nodeMap : List (String × Int)
  numNodes : Int
deriving DecidableEq

/-- The parser state right after `parseFile` initialises the node map. -/
def initParserState : ParserState :=
  ⟨[], [("0", 0), ("gnd", 0), ("ground", 0)], 1⟩

def lookupAssoc (m : List (String × Int)) (k : String) : Option Int :=
  (m.find? (fun p => decide (p.1 = k))).map Prod.snd

/-- `SPICEParser::getNodeNumber`: case-fold the node name, look it up, or
allocate the next number. -/
def getNodeNumber (st : ParserState) (nodeName : String) : Int × ParserState :=
  let lowerNode := lowerString nodeName
  match lookupAssoc st.nodeMap lowerNode with
  | some n => (n, st)
  | none =>
    (st.numNodes,
     { st with nodeMap := st.nodeMap ++ [(lowerNode, st.numNodes)],
               numNodes := st.numNodes + 1 })

/-- Build a two-pin element the way the element constructors plus the two
`setNodeForPin` calls in the parser do. -/
def mkTwoPin (tag : ElemTag) (name : String) (value : Frac) (n1 n2 : Int) : Element :=
  ⟨name, tag, value, "", [n1, n2]⟩

/-- `SPICEParser::parseResistor`: fewer than 4 tokens is rejected with a
diagnostic; otherwise nodes are interned and the element appended. -/
def parseResistor (st : ParserState) (tokens : List String) : ParserState :=
  if tokens.length < 4 then st
  else
    let name := tokens.getD 0 ""
    let r1 := getNodeNumber st (tokens.getD 1 "")
    let r2 := getNodeNumber r1.2 (tokens.getD 2 "")
    let resistance := (parseValue (tokens.getD 3 "")).value
    { r2.2 with
      elements := r2.2.elements ++ [mkTwoPin .resistor name resistance r1.1 r2.1] }

/-- `SPICEParser::parseCapacitor`.  The source indexes `tokens[1..3]` without a
length guard; callers below are only invoked with at least 4 tokens (shorter
lines are undefined behaviour in the C++), modelled by `getD`. -/
def parseCapacitor (st : ParserState) (tokens : List String) : ParserState :=
  let name := tokens.getD 0 ""
  let r1 := getNodeNumber st (tokens.getD 1 "")
  let r2 := getNodeNumber r1.2 (tokens.getD 2 "")
  let capacitance := (parseValue (tokens.getD 3 "")).value
  { r2.2 with
    elements := r2.2.elements ++ [mkTwoPin .capacitor name capacitance r1.1 r2.1] }

/-- `SPICEParser::parseVoltageSource`, including the optional `DC`/`dc` keyword
before the numeric value. -/
def parseVoltageSource (st : ParserState) (tokens : List String) : ParserState :=
  let name := tokens.getD 0 ""
  let r1 := getNodeNumber st (tokens.getD 1 "")
  let r2 := getNodeNumber r1.2 (tokens.getD 2 "")
  let voltage :=
    if 4 ≤ tokens.length then
      if 5 ≤ tokens.length ∧ (tokens.getD 3 "" = "DC" ∨ tokens.getD 3 "" = "dc") then
        (parseValue (tokens.getD 4 "")).value
      else (parseValue (tokens.getD 3 "")).value
    else fZero
  { r2.2 with
    elements := r2.2.elements ++ [mkTwoPin .vsource name voltage r1.1 r2.1] }

/-- Result of dispatching one component line: the new parser state and whether
the `default` branch printed its `Unknown component type` warning. -/
structure ParseLineResult where
  state : ParserState
  warned : Bool
deriving DecidableEq

/-- `SPICEParser::parseComponent`: fewer than 3 tokens is rejected; otherwise
the switch is on `tolower(name[0])`.  Faithful to the source: only `r`, `c` and
`v` construct elements; `case 'i'` and `case 'm'` contain only commented-out
calls and fall through silently; every other first character (including `l` and
`d` — `parseInductor`, `parseDiode` and `parseMOSFET` exist but are never
called) reaches the `default` warning. -/
def parseComponent (st : ParserState) (tokens : List String) : ParseLineResult :=
  if tokens.length < 3 then ⟨st, false⟩
  else
    let name := tokens.getD 0 ""
    let componentType := asciiToLower (name.data.getD 0 (Char.ofNat 0))
    if componentType = 'r' then ⟨parseResistor st tokens, false⟩
    else if componentType = 'c' then ⟨parseCapacitor st tokens, false⟩
    else if componentType = 'v' then ⟨parseVoltageSource st tokens, false⟩
    else if componentType = 'i' then ⟨st, false⟩
    else if componentType = 'm' then ⟨st, false⟩
    else ⟨st, true⟩

/-! ## Connectivity manager (`src/circuit_manager.h`)

Components, wires and junctions with node-id assignment.  Wires and junctions
store raw pointers into the component/wire arenas in the C++; the embedding
uses list indices (`none` for a null pointer).  Pixel coordinates only feed the
geometric hit tests (`findPinAt`, `findWireAt`, `connectToWire`), which no
claim exercises; wire waypoint paths are carried opaquely. -/

/-- A waypoint of a wire path (world coordinates). -/
structure Point where
  x : Frac
  y : Frac
deriving DecidableEq

/-- A `Wire`: endpoints as component index + pin index, the node it belongs
to, and its waypoint path. -/
structure WireE where
  comp1 : Option Nat
  pin1 : Int
  comp2 : Option Nat
  pin2 : Int
  nodeId : Int
  path : List Point
deriving DecidableEq

/-- A `Junction`: its node, position, and the indices of its incident wires. -/
structure JunctionE where
  nodeId : Int
  x : Frac
  y : Frac
  wires : List Nat
deriving DecidableEq

/-- `std::unordered_set<int>` insert (sets have no duplicates). -/
def setInsert (l : List Int) (n : Int) : List Int :=
  if n ∈ l then l else l ++ [n]

/-- `std::unordered_set<int>` erase. -/
def setErase (l : List Int) (n : Int) : List Int :=
  l.filter (fun m => decide (m ≠ n))

/-- The `CircuitManager` state: owned components, wires, junctions, the
per-letter auto-naming counters, the used-node set and the fresh-id counter. -/
structure CMState where
  components : List Element
  wires : List WireE
  junctions : List JunctionE
  counters : List (String × Nat)
  usedNodes : List Int
  nextNodeId : Int
deriving DecidableEq

/-- The state built by the `CircuitManager` constructor. -/
def initCMState : CMState :=
  ⟨[], [], [],
   [("R", 0), ("C", 0), ("L", 0), ("V", 0), ("I", 0), ("Q", 0), ("U", 0), ("D", 0), ("GND", 0)],
   [0], 1⟩

/-- Placeholder for dereferencing an out-of-range component index (a component
pointer is always valid in the source; the placeholder has no pins, so every
pin access on it fails the range checks). -/
def dummyElement : Element := ⟨"", .resistor, fZero, "", []⟩

def CMState.comp (st : CMState) (i : Nat) : Element :=
  st.components.getD i dummyElement

/-- Write one pin of one component (through the base-class `setNodeForPin`). -/
def CMState.setCompPin (st : CMState) (ci : Nat) (pin node : Int) : CMState :=
  { st with components := st.components.set ci ((st.comp ci).setNodeForPin pin node) }

/-- `CircuitManager::mergeNodes`: relabel `old_node` to `new_node` on every pin
of every component (the loop calls the non-virtual base `setNodeForPin`, so
`ground` components are rewritten like any other) and on every wire, then
update the node set.  Junctions are **not** touched by this function (unlike
`groundNode` below). -/
def mergeNodes (st : CMState) (oldNode newNode : Int) : CMState :=
  if oldNode = newNode then st
  else
    { st with
      components := st.components.map (fun c =>
        { c with pins := c.pins.map (fun n => if n = oldNode then newNode else n) }),
      wires := st.wires.map (fun w =>
        if w.nodeId = oldNode then { w with nodeId := newNode } else w),
      usedNodes := setInsert (setErase st.usedNodes oldNode) newNode }

/-- `CircuitManager::groundNode`: relabel a node to 0 on every pin, wire *and*
junction, and update the node set. -/
def groundNode (st : CMState) (nodeId : Int) : CMState :=
  if nodeId = 0 then st
  else
    { st with
      components := st.components.map (fun c =>
        { c with pins := c.pins.map (fun n => if n = nodeId then 0 else n) }),
      wires := st.wires.map (fun w =>
        if w.nodeId = nodeId then { w with nodeId := 0 } else w),
      junctions := st.junctions.map (fun j =>
        if j.nodeId = nodeId then { j with nodeId := 0 } else j),
      usedNodes := setInsert (setErase st.usedNodes nodeId) 0 }

/-- `CircuitManager::connectToGround`: a pin already on node 0 is refused with
`false` and nothing changes; otherwise the pin's node (if any) is grounded
wholesale, or the pin is set to 0 directly; the ground symbol's own pin is set
to 0 and a node-0 wire is appended. -/
def connectToGround (st : CMState) (ci : Nat) (pin : Int) (gi : Nat) (gpin : Int)
    (path : List Point) : Bool × CMState :=
  let currentNode := (st.comp ci).nodeForPin pin
  if currentNode = 0 then (false, st)
  else
    let st1 := if currentNode ≠ -1 then groundNode st currentNode
               else st.setCompPin ci pin 0
    let st2 := st1.setCompPin gi gpin 0
    (true, { st2 with wires := st2.wires ++ [⟨some ci, pin, some gi, gpin, 0, path⟩] })

/-- The common tail of `connectPins`: assign the final node to both pins,
append the wire, return `true`. -/
def finishConnect (st : CMState) (c1 : Nat) (p1 : Int) (c2 : Nat) (p2 : Int)
    (finalId : Int) (path : List Point) : Bool × CMState :=
  let st1 := st.setCompPin c1 p1 finalId
  let st2 := st1.setCompPin c2 p2 finalId
  (true, { st2 with wires := st2.wires ++ [⟨some c1, p1, some c2, p2, finalId, path⟩] })

/-- `CircuitManager::connectPins`: self-connection and bad pin indices are
refused; a `ground` endpoint delegates to `connectToGround`; otherwise the
four-way node-merge case analysis of the source. -/
def connectPins (st : CMState) (c1 : Nat) (p1 : Int) (c2 : Nat) (p2 : Int)
    (path : List Point) : Bool × CMState :=
  if c1 = c2 then (false, st)
  else if p1 < 0 ∨ (st.comp c1).pinCount ≤ p1 then (false, st)
  else if p2 < 0 ∨ (st.comp c2).pinCount ≤ p2 then (false, st)
  else if (st.comp c1).tag.typeName = "ground" then connectToGround st c2 p2 c1 p1 path
  else if (st.comp c2).tag.typeName = "ground" then connectToGround st c1 p1 c2 p2 path
  else
    let node1 := (st.comp c1).nodeForPin p1
    let node2 := (st.comp c2).nodeForPin p2
    if node1 = -1 ∧ node2 = -1 then
      let finalId := st.nextNodeId
      let st1 := { st with usedNodes := setInsert st.usedNodes finalId,
                           nextNodeId := st.nextNodeId + 1 }
      finishConnect st1 c1 p1 c2 p2 finalId path
    else if node1 ≠ -1 ∧ node2 = -1 then finishConnect st c1 p1 c2 p2 node1 path
    else if node1 = -1 ∧ node2 ≠ -1 then finishConnect st c1 p1 c2 p2 node2 path
    else if node1 = node2 then (false, st)
    else finishConnect (mergeNodes st node2 node1) c1 p1 c2 p2 node1 path

/-- `CircuitManager::getComponentPrefix`. -/
def componentTypeLetter (type : String) : String :=
  if type = "resistor" then "R"
  else if type = "capacitor" then "C"
  else if type = "inductor" then "L"
  else if type = "vsource" then "V"
  else if type = "isource" then "I"
  else if type = "diode" then "D"
  else if type = "nmosfet" ∨ type = "pmosfet" then "M"
  else if type = "opamp" ∨ type = "ic" then "U"
  else if type = "ground" then "GND"
  else "X"

/-- `++component_counters[prefix]`: `operator[]` default-constructs a missing
counter at 0, then pre-increments. -/
def bumpCounter (cs : List (String × Nat)) (k : String) : Nat × List (String × Nat) :=
  match cs.find? (fun p => decide (p.1 = k)) with
  | some p => (p.2 + 1, cs.map (fun q => if q.1 = k then (k, p.2 + 1) else q))
  | none => (1, cs ++ [(k, 1)])

/-- The component each branch of `CircuitManager::addComponent` constructs:
default parameter values and the pin lists from the `circuit_element.h`
constructors (`ground` is born with its single pin on node 0).  `none` for an
unknown type (`addComponent` returns `nullptr`). -/
def defaultElement (type name : String) : Option Element :=
  if type = "resistor" then some ⟨name, .resistor, ⟨1000, 1⟩, "", [-1, -1]⟩
  else if type = "capacitor" then some ⟨name, .capacitor, ⟨1, 1000000⟩, "", [-1, -1]⟩
  else if type = "vsource" then some ⟨name, .vsource, ⟨5, 1⟩, "", [-1, -1]⟩
  else if type = "ground" then some ⟨name, .ground, fZero, "GND", [0]⟩
  else if type = "inductor" then some ⟨name, .inductor, ⟨1, 1000000⟩, "", [-1, -1]⟩
  else if type = "diode" then some ⟨name, .diode, fZero, "D1N4148", [-1, -1]⟩
  else if type = "nmosfet" then some ⟨name, .nmosfet, fZero, "NMOS", [-1, -1, -1, -1]⟩
  else if type = "pmosfet" then some ⟨name, .pmosfet, fZero, "PMOS", [-1, -1, -1, -1]⟩
  else if type = "opamp" then some ⟨name, .opamp, fZero, "LM741", [-1, -1, -1, -1]⟩
  else none

/-- `CircuitManager::addComponent` (the position arguments only set GUI
coordinates).  The counter is bumped *before* the type switch, so even an
unknown type advances it. -/
def addComponent (st : CMState) (type : String) : CMState × Option Nat :=
  let pfx := componentTypeLetter type
  let bc := bumpCounter st.counters pfx
  let name := pfx ++ toString bc.1
  let st1 := { st with counters := bc.2 }
  match defaultElement type name with
  | some e => ({ st1 with components := st1.components ++ [e] }, some st1.components.length)
  | none => (st1, none)

/-! ## NMOS device model (`NMOSFET` in `circuit_element.h`)

The default device parameters; nothing in the repository ever mutates them
(`setValue` only replaces the model string). -/

def nmosW : Frac := ⟨10, 1000000⟩

def nmosL : Frac := ⟨1, 1000000⟩

def nmosVth : Frac := ⟨7, 10⟩

def nmosKn : Frac := ⟨100, 1000000⟩

def nmosLambda : Frac := ⟨1, 100⟩

/-- `NMOSFET::getDrainCurrent`. -/
def nmosGetDrainCurrent (vgs vds : Frac) : Frac :=
  if Frac.blt vgs nmosVth then fZero
  else
    let beta := nmosKn * (nmosW / nmosL)
    if Frac.blt vds (vgs - nmosVth) then
      beta * ((vgs - nmosVth) * vds - ⟨1, 2⟩ * (vds * vds)) * (fOne + nmosLambda * vds)
    else
      ⟨1, 2⟩ * beta * ((vgs - nmosVth) * (vgs - nmosVth)) * (fOne + nmosLambda * vds)

/-- `NMOSFET::getTransconductance`. -/
def nmosGetTransconductance (vgs vds : Frac) : Frac :=
  if Frac.blt vgs nmosVth then fZero
  else
    let beta := nmosKn * (nmosW / nmosL)
    if Frac.blt vds (vgs - nmosVth) then
      beta * vds * (fOne + nmosLambda * vds)
    else
      beta * (vgs - nmosVth) * (fOne + nmosLambda * vds)

/-- `NMOSFET::getOutputConductance`. -/
def nmosGetOutputConductance (vgs vds : Frac) : Frac :=
  if Frac.blt vgs nmosVth then ⟨1, 1000000000000⟩
  else
    let beta := nmosKn * (nmosW / nmosL)
    if Frac.blt vds (vgs - nmosVth) then
      beta * (vgs - nmosVth - vds) * (fOne + nmosLambda * vds) +
        beta * ((vgs - nmosVth) * vds - ⟨1, 2⟩ * (vds * vds)) * nmosLambda
    else
      ⟨1, 2⟩ * beta * nmosLambda * ((vgs - nmosVth) * (vgs - nmosVth))

/-! ## DC analysis (`src/simulation/dc_analysis.cpp`)

The dense matrix `G` and right-hand side `b` are modelled as total functions on
integer indices; every write to `G` in the source goes through the
bounds-guarded `addMatrixEntry`, and every write to `b` sits under an explicit
range check, so the entries outside `[0,N)` stay at their cleared value `0`. -/

abbrev MatF := Int → Int → Frac

abbrev VecF := Int → Frac

/-- `tolower(element->name[0])`, the dispatch character of the analysis
engines (`name[0]` of an empty `std::string` reads the null terminator). -/
def nameTypeChar (e : Element) : Char :=
  asciiToLower (e.name.data.getD 0 (Char.ofNat 0))

/-- Overwriting insert of `std::map<std::string,int>::operator[]`. -/
def mapInsert (m : List (String × Int)) (k : String) (v : Int) : List (String × Int) :=
  if (m.find? (fun p => decide (p.1 = k))).isSome then
    m.map (fun p => if p.1 = k then (k, v) else p)
  else m ++ [(k, v)]

/-- The voltage-source census of the `DCAnalysis`/`TransientAnalysis`
constructors: every element with a nonempty name whose first character
case-folds to `v` gets the next index `(numNodes − 1) + k`; returns the index
map and the count. -/
def buildVSIndex (elems : List Element) (numNodes : Int) : List (String × Int) × Int :=
  elems.foldl
    (fun acc e =>
      if e.name.isEmpty then acc
      else if nameTypeChar e = 'v' then
        (mapInsert acc.1 e.name ((numNodes - 1) + acc.2), acc.2 + 1)
      else acc)
    ([], 0)

/-- `matrixSize = (numNodes - 1) + numVoltageSources`. -/
def matrixSize (elems : List Element) (numNodes : Int) : Int :=
  numNodes - 1 + (buildVSIndex elems numNodes).2

/-- `addMatrixEntry` (identical in `dc_analysis.cpp` and
`transient_analysis.cpp`): `G[row][col] += value` only when both indices lie in
`[0, matrixSize)`; anything else is silently dropped. -/
def addMatrixEntry (N : Int) (G : MatF) (row col : Int) (v : Frac) : MatF :=
  if 0 ≤ row ∧ row < N ∧ 0 ≤ col ∧ col < N then
    fun r c => if r = row ∧ c = col then G r c + v else G r c
  else G

def vecAdd (b : VecF) (i : Int) (v : Frac) : VecF :=
  fun j => if j = i then b j + v else b j

def vecSub (b : VecF) (i : Int) (v : Frac) : VecF :=
  fun j => if j = i then b j - v else b j

def vecSet (b : VecF) (i : Int) (v : Frac) : VecF :=
  fun j => if j = i then v else b j

/-- The conductance stamp shared verbatim by `DCAnalysis::addResistor` and
`TransientAnalysis::addResistor`: `±g` at the four node-index pairs, each entry
guarded both by the node-range check and by `addMatrixEntry`. -/
def addResistorStamp (numNodes N : Int) (n1 n2 : Int) (conductance : Frac) (G : MatF) : MatF :=
  if n1 = 0 ∧ n2 = 0 then G
  else if n1 = 0 then
    let nodeIdx := n2 - 1
    if 0 ≤ nodeIdx ∧ nodeIdx < numNodes - 1 then
      addMatrixEntry N G nodeIdx nodeIdx conductance
    else G
  else if n2 = 0 then
    let nodeIdx := n1 - 1
    if 0 ≤ nodeIdx ∧ nodeIdx < numNodes - 1 then
      addMatrixEntry N G nodeIdx nodeIdx conductance
    else G
  else
    let idx1 := n1 - 1
    let idx2 := n2 - 1
    let G1 :=
      if 0 ≤ idx1 ∧ idx1 < numNodes - 1 then
        let Ga := addMatrixEntry N G idx1 idx1 conductance
        if 0 ≤ idx2 ∧ idx2 < numNodes - 1 then
          addMatrixEntry N Ga idx1 idx2 (-conductance)
        else Ga
      else G
    if 0 ≤ idx2 ∧ idx2 < numNodes - 1 then
      let Gb := addMatrixEntry N G1 idx2 idx2 conductance
      if 0 ≤ idx1 ∧ idx1 < numNodes - 1 then
        addMatrixEntry N Gb idx2 idx1 (-conductance)
      else Gb
    else G1

/-- `DCAnalysis::addResistor` (`static_cast<const Resistor*>` reads the shared
value slot as the resistance). -/
def addResistor (numNodes N : Int) (e : Element) (G : MatF) : MatF :=
  addResistorStamp numNodes N (e.pins.getD 0 (-1)) (e.pins.getD 1 (-1)) (fOne / e.value) G

/-- `DCAnalysis::addVoltageSource` / `TransientAnalysis::addVoltageSource`
(these stamp identically; the transient version receives the current time but
uses the DC value).  An element missing from the index map is skipped. -/
def addVoltageSource (numNodes N : Int) (vsIdx : List (String × Int)) (e : Element)
    (G : MatF) (b : VecF) : MatF × VecF :=
  let n1 := e.pins.getD 0 (-1)
  let n2 := e.pins.getD 1 (-1)
  let voltage := e.value
  match lookupAssoc vsIdx e.name with
  | none => (G, b)
  | some vsIndex =>
    let G1 :=
      if n1 ≠ 0 then
        let nodeIdx := n1 - 1
        if 0 ≤ nodeIdx ∧ nodeIdx < numNodes - 1 then
          addMatrixEntry N (addMatrixEntry N G nodeIdx vsIndex fOne) vsIndex nodeIdx fOne
        else G
      else G
    let G2 :=
      if n2 ≠ 0 then
        let nodeIdx := n2 - 1
        if 0 ≤ nodeIdx ∧ nodeIdx < numNodes - 1 then
          addMatrixEntry N (addMatrixEntry N G1 nodeIdx vsIndex (-fOne)) vsIndex nodeIdx (-fOne)
        else G1
      else G1
    let b1 := if 0 ≤ vsIndex ∧ vsIndex < N then vecSet b vsIndex voltage else b
    (G2, b1)

/-- `DCAnalysis::addInductor`: DC short circuit as a `1e6` conductance in the
resistor pattern. -/
def addInductor (numNodes N : Int) (e : Element) (G : MatF) : MatF :=
  addResistorStamp numNodes N (e.pins.getD 0 (-1)) (e.pins.getD 1 (-1)) ⟨1000000, 1⟩ G

/-- `DCAnalysis::addDiode`: piecewise-linear model, forward conductance `1e-3`
with a `0.7 V` drop injected into `b`. -/
def addDiode (numNodes N : Int) (e : Element) (G : MatF) (b : VecF) : MatF × VecF :=
  let n1 := e.pins.getD 0 (-1)
  let n2 := e.pins.getD 1 (-1)
  let fc : Frac := ⟨1, 1000⟩
  let vd : Frac := ⟨7, 10⟩
  if n1 = 0 ∧ n2 = 0 then (G, b)
  else if n1 = 0 then
    let nodeIdx := n2 - 1
    if 0 ≤ nodeIdx ∧ nodeIdx < numNodes - 1 then
      (addMatrixEntry N G nodeIdx nodeIdx fc, vecAdd b nodeIdx (fc * vd))
    else (G, b)
  else if n2 = 0 then
    let nodeIdx := n1 - 1
    if 0 ≤ nodeIdx ∧ nodeIdx < numNodes - 1 then
      (addMatrixEntry N G nodeIdx nodeIdx fc, vecSub b nodeIdx (fc * vd))
    else (G, b)
  else
    let idx1 := n1 - 1
    let idx2 := n2 - 1
    let Gb1 : MatF × VecF :=
      if 0 ≤ idx1 ∧ idx1 < numNodes - 1 then
        let Ga := addMatrixEntry N G idx1 idx1 fc
        let ba := vecSub b idx1 (fc * vd)
        if 0 ≤ idx2 ∧ idx2 < numNodes - 1 then
          (addMatrixEntry N Ga idx1 idx2 (-fc), ba)
        else (Ga, ba)
      else (G, b)
    if 0 ≤ idx2 ∧ idx2 < numNodes - 1 then
      let Gb := addMatrixEntry N Gb1.1 idx2 idx2 fc
      let bb := vecAdd Gb1.2 idx2 (fc * vd)
      if 0 ≤ idx1 ∧ idx1 < numNodes - 1 then
        (addMatrixEntry N Gb idx2 idx1 (-fc), bb)
      else (Gb, bb)
    else Gb1

/-- `DCAnalysis::addMOSFET`: output conductance `gds` at the fixed bias guess
`Vgs = Vds = 2 V` stamped between drain and source (`gm` and the bias current
are computed in the source but never stamped). -/
def addMOSFET (numNodes N : Int) (e : Element) (G : MatF) : MatF :=
  let nd := e.pins.getD 0 (-1)
  let ns := e.pins.getD 2 (-1)
  let gds := nmosGetOutputConductance 2 2
  if nd ≠ 0 ∧ ns ≠ 0 then
    let idxD := nd - 1
    let idxS := ns - 1
    let G1 :=
      if 0 ≤ idxD ∧ idxD < numNodes - 1 then
        let Ga := addMatrixEntry N G idxD idxD gds
        if 0 ≤ idxS ∧ idxS < numNodes - 1 then
          addMatrixEntry N Ga idxD idxS (-gds)
        else Ga
      else G
    if 0 ≤ idxS ∧ idxS < numNodes - 1 then
      let Gb := addMatrixEntry N G1 idxS idxS gds
      if 0 ≤ idxD ∧ idxD < numNodes - 1 then
        addMatrixEntry N Gb idxS idxD (-gds)
      else Gb
    else G1
  else G

/-- One arm of the `switch (tolower(element->name[0]))` in
`DCAnalysis::buildMNAMatrix`.  The dispatch looks only at the *name*; the
element's dynamic type is consulted solely by the `dynamic_cast`s of
`case 'm'` (capacitors are DC open circuits, an actual-PMOS `m` element only
prints a notice, and a non-MOSFET `m` element fails both casts). -/
def stampDCElement (numNodes N : Int) (vsIdx : List (String × Int))
    (Gb : MatF × VecF) (e : Element) : MatF × VecF :=
  if e.name.isEmpty then Gb
  else
    let t := nameTypeChar e
    if t = 'r' then (addResistor numNodes N e Gb.1, Gb.2)
    else if t = 'v' then addVoltageSource numNodes N vsIdx e Gb.1 Gb.2
    else if t = 'c' then Gb
    else if t = 'l' then (addInductor numNodes N e Gb.1, Gb.2)
    else if t = 'd' then addDiode numNodes N e Gb.1 Gb.2
    else if t = 'm' then
      match e.tag with
      | .nmosfet => (addMOSFET numNodes N e Gb.1, Gb.2)
      | _ => Gb
    else Gb

/-- `DCAnalysis::buildMNAMatrix`: clear `G` and `b`, then stamp every element
in order. -/
def buildMNAMatrixDC (elems : List Element) (numNodes : Int) : MatF × VecF :=
  let N := matrixSize elems numNodes
  let vsIdx := (buildVSIndex elems numNodes).1
  elems.foldl (stampDCElement numNodes N vsIdx) (fun _ _ => fZero, fun _ => fZero)

/-! ## Transient analysis (`src/simulation/transient_analysis.cpp`)

Backward-Euler time stepping.  The diode companion model evaluates `std::exp`;
the development is parameterised by an arbitrary exponential function `rexp`,
so every theorem below holds for the true exponential in particular (the
parser front-end — the only code that constructs a `TransientAnalysis` — never
produces diode elements, so no claim depends on `rexp`). -/

/-- `Diode` default saturation current `Is = 1e-14` (`setValue` only changes
the model string, so every diode carries the defaults). -/
def diodeIsat : Frac := ⟨1, 100000000000000⟩

/-- `Diode` default ideality factor `n = 1`. -/
def diodeN : Frac := fOne

/-- `Diode` default thermal voltage `Vt = 0.026`. -/
def diodeVt : Frac := ⟨26, 1000⟩

/-- `Diode::getCurrent`, relative to an exponential function. -/
def diodeGetCurrent (rexp : Frac → Frac) (v : Frac) : Frac :=
  if Frac.blt v (-(⟨5, 1⟩ * diodeN * diodeVt)) then -diodeIsat
  else diodeIsat * (rexp (v / (diodeN * diodeVt)) - fOne)

/-- `Diode::getConductance`, relative to an exponential function. -/
def diodeGetConductance (rexp : Frac → Frac) (v : Frac) : Frac :=
  if Frac.blt v (-(⟨5, 1⟩ * diodeN * diodeVt)) then ⟨1, 1000000000000⟩
  else (diodeIsat / (diodeN * diodeVt)) * rexp (v / (diodeN * diodeVt))

/-- `TransientSettings`. -/
structure TranSettings where
  stepTime : Frac
  stopTime : Frac
  startTime : Frac
deriving DecidableEq

/-- A `TimePoint` of the result log. -/
structure TimePoint where
  time : Frac
  nodeVoltages : List Frac
  branchCurrents : List (String × Frac)
deriving DecidableEq

/-- The guarded `x_prev` read pattern
`(n == 0) ? 0.0 : ((n-1 < x_prev.size()) ? x_prev[n-1] : 0.0)`: the signed
index converts to `size_t` in the comparison, so a negative `n - 1` also takes
the `0.0` branch. -/
def prevVoltage (xPrev : List Frac) (n : Int) : Frac :=
  if n = 0 then fZero
  else if 0 ≤ n - 1 ∧ n - 1 < (xPrev.length : Int) then xPrev.getD (n - 1).toNat fZero
  else fZero

/-- `TransientAnalysis::addCapacitor`: companion model `Geq = C/Δt`,
`Ieq = Geq·v_prev`. -/
def addCapacitorTr (numNodes N : Int) (stepTime : Frac) (xPrev : List Frac) (e : Element)
    (G : MatF) (b : VecF) : MatF × VecF :=
  let n1 := e.pins.getD 0 (-1)
  let n2 := e.pins.getD 1 (-1)
  let geq := e.value / stepTime
  let vcapPrev := prevVoltage xPrev n1 - prevVoltage xPrev n2
  let ieq := geq * vcapPrev
  if n1 = 0 ∧ n2 = 0 then (G, b)
  else if n1 = 0 then
    let nodeIdx := n2 - 1
    if 0 ≤ nodeIdx ∧ nodeIdx < numNodes - 1 then
      (addMatrixEntry N G nodeIdx nodeIdx geq, vecAdd b nodeIdx ieq)
    else (G, b)
  else if n2 = 0 then
    let nodeIdx := n1 - 1
    if 0 ≤ nodeIdx ∧ nodeIdx < numNodes - 1 then
      (addMatrixEntry N G nodeIdx nodeIdx geq, vecSub b nodeIdx ieq)
    else (G, b)
  else
    let idx1 := n1 - 1
    let idx2 := n2 - 1
    let Gb1 : MatF × VecF :=
      if 0 ≤ idx1 ∧ idx1 < numNodes - 1 then
        let Ga := addMatrixEntry N G idx1 idx1 geq
        let ba := vecSub b idx1 ieq
        if 0 ≤ idx2 ∧ idx2 < numNodes - 1 then
          (addMatrixEntry N Ga idx1 idx2 (-geq), ba)
        else (Ga, ba)
      else (G, b)
    if 0 ≤ idx2 ∧ idx2 < numNodes - 1 then
      let Gb := addMatrixEntry N Gb1.1 idx2 idx2 geq
      let bb := vecAdd Gb1.2 idx2 ieq
      if 0 ≤ idx1 ∧ idx1 < numNodes - 1 then
        (addMatrixEntry N Gb idx2 idx1 (-geq), bb)
      else (Gb, bb)
    else Gb1

/-- `TransientAnalysis::addInductor`: `Geq = 1/(Δt/L)`; the companion current
is `getInductorPreviousCurrent`, a placeholder that always returns `0.0`. -/
def addInductorTr (numNodes N : Int) (stepTime : Frac) (e : Element)
    (G : MatF) (b : VecF) : MatF × VecF :=
  let n1 := e.pins.getD 0 (-1)
  let n2 := e.pins.getD 1 (-1)
  let geq := fOne / (stepTime / e.value)
  let ieq := fZero
  if n1 = 0 ∧ n2 = 0 then (G, b)
  else if n1 = 0 then
    let nodeIdx := n2 - 1
    if 0 ≤ nodeIdx ∧ nodeIdx < numNodes - 1 then
      (addMatrixEntry N G nodeIdx nodeIdx geq, vecSub b nodeIdx ieq)
    else (G, b)
  else if n2 = 0 then
    let nodeIdx := n1 - 1
    if 0 ≤ nodeIdx ∧ nodeIdx < numNodes - 1 then
      (addMatrixEntry N G nodeIdx nodeIdx geq, vecAdd b nodeIdx ieq)
    else (G, b)
  else
    let idx1 := n1 - 1
    let idx2 := n2 - 1
    let Gb1 : MatF × VecF :=
      if 0 ≤ idx1 ∧ idx1 < numNodes - 1 then
        let Ga := addMatrixEntry N G idx1 idx1 geq
        let ba := vecAdd b idx1 ieq
        if 0 ≤ idx2 ∧ idx2 < numNodes - 1 then
          (addMatrixEntry N Ga idx1 idx2 (-geq), ba)
        else (Ga, ba)
      else (G, b)
    if 0 ≤ idx2 ∧ idx2 < numNodes - 1 then
      let Gb := addMatrixEntry N Gb1.1 idx2 idx2 geq
      let bb := vecSub Gb1.2 idx2 ieq
      if 0 ≤ idx1 ∧ idx1 < numNodes - 1 then
        (addMatrixEntry N Gb idx2 idx1 (-geq), bb)
      else (Gb, bb)
    else Gb1

/-- `TransientAnalysis::addDiodeTransient`: linearisation around the previous
step, `Is = I(v_prev) − g(v_prev)·v_prev`. -/
def addDiodeTr (rexp : Frac → Frac) (numNodes N : Int) (xPrev : List Frac) (e : Element)
    (G : MatF) (b : VecF) : MatF × VecF :=
  let n1 := e.pins.getD 0 (-1)
  let n2 := e.pins.getD 1 (-1)
  let vPrev := prevVoltage xPrev n1 - prevVoltage xPrev n2
  let cond := diodeGetConductance rexp vPrev
  let cs := diodeGetCurrent rexp vPrev - cond * vPrev
  if n1 = 0 ∧ n2 = 0 then (G, b)
  else if n1 = 0 then
    let nodeIdx := n2 - 1
    if 0 ≤ nodeIdx ∧ nodeIdx < numNodes - 1 then
      (addMatrixEntry N G nodeIdx nodeIdx cond, vecAdd b nodeIdx cs)
    else (G, b)
  else if n2 = 0 then
    let nodeIdx := n1 - 1
    if 0 ≤ nodeIdx ∧ nodeIdx < numNodes - 1 then
      (addMatrixEntry N G nodeIdx nodeIdx cond, vecSub b nodeIdx cs)
    else (G, b)
  else
    let idx1 := n1 - 1
    let idx2 := n2 - 1
    let Gb1 : MatF × VecF :=
      if 0 ≤ idx1 ∧ idx1 < numNodes - 1 then
        let Ga := addMatrixEntry N G idx1 idx1 cond
        let ba := vecSub b idx1 cs
        if 0 ≤ idx2 ∧ idx2 < numNodes - 1 then
          (addMatrixEntry N Ga idx1 idx2 (-cond), ba)
        else (Ga, ba)
      else (G, b)
    if 0 ≤ idx2 ∧ idx2 < numNodes - 1 then
      let Gb := addMatrixEntry N Gb1.1 idx2 idx2 cond
      let bb := vecAdd Gb1.2 idx2 cs
      if 0 ≤ idx1 ∧ idx1 < numNodes - 1 then
        (addMatrixEntry N Gb idx2 idx1 (-cond), bb)
      else (Gb, bb)
    else Gb1

/-- `addMOSFETTransient`, transconductance stamp into the drain row:
`G[idx_d][idx_g] += gm` when drain and gate are off ground and both indices
are in node range. -/
def mosfetStampDG (numNodes N nd ng : Int) (gm : Frac) (G : MatF) : MatF :=
  if nd ≠ 0 ∧ ng ≠ 0 then
    if (0 ≤ nd - 1 ∧ nd - 1 < numNodes - 1) ∧ (0 ≤ ng - 1 ∧ ng - 1 < numNodes - 1) then
      addMatrixEntry N G (nd - 1) (ng - 1) gm
    else G
  else G

/-- `addMOSFETTransient`, `G[idx_d][idx_s] -= gm`. -/
def mosfetStampDS (numNodes N nd ns : Int) (gm : Frac) (G : MatF) : MatF :=
  if nd ≠ 0 ∧ ns ≠ 0 then
    if (0 ≤ nd - 1 ∧ nd - 1 < numNodes - 1) ∧ (0 ≤ ns - 1 ∧ ns - 1 < numNodes - 1) then
      addMatrixEntry N G (nd - 1) (ns - 1) (-gm)
    else G
  else G

/-- `addMOSFETTransient`, output-conductance block: the `±gds` stamps between
drain and source together with the companion current `cs` into `b`. -/
def mosfetStampGds (numNodes N nd ns : Int) (gds cs : Frac) (G : MatF) (b : VecF) :
    MatF × VecF :=
  if nd ≠ 0 ∧ ns ≠ 0 then
    let idxD := nd - 1
    let idxS := ns - 1
    let GbA : MatF × VecF :=
      if 0 ≤ idxD ∧ idxD < numNodes - 1 then
        let Ga := addMatrixEntry N G idxD idxD gds
        let ba := vecSub b idxD cs
        if 0 ≤ idxS ∧ idxS < numNodes - 1 then (addMatrixEntry N Ga idxD idxS (-gds), ba)
        else (Ga, ba)
      else (G, b)
    if 0 ≤ idxS ∧ idxS < numNodes - 1 then
      let Gb := addMatrixEntry N GbA.1 idxS idxS gds
      let bb := vecAdd GbA.2 idxS cs
      if 0 ≤ idxD ∧ idxD < numNodes - 1 then (addMatrixEntry N Gb idxS idxD (-gds), bb)
      else (Gb, bb)
    else GbA
  else (G, b)

/-- `addMOSFETTransient`, `G[idx_s][idx_g] -= gm` (source row, gate column). -/
def mosfetStampSG (numNodes N ns ng : Int) (gm : Frac) (G : MatF) : MatF :=
  if ns ≠ 0 ∧ ng ≠ 0 then
    if (0 ≤ ns - 1 ∧ ns - 1 < numNodes - 1) ∧ (0 ≤ ng - 1 ∧ ng - 1 < numNodes - 1) then
      addMatrixEntry N G (ns - 1) (ng - 1) (-gm)
    else G
  else G

/-- `addMOSFETTransient`, the source self-contribution `G[idx_s][idx_s] += gm`. -/
def mosfetStampSS (numNodes N ns : Int) (gm : Frac) (G : MatF) : MatF :=
  if ns ≠ 0 then
    if 0 ≤ ns - 1 ∧ ns - 1 < numNodes - 1 then
      addMatrixEntry N G (ns - 1) (ns - 1) gm
    else G
  else G

/-- `TransientAnalysis::addMOSFETTransient` (NMOS): `gm`/`gds` linearisation at
the previous-step voltages with the companion current
`Is = Id − gm·Vgs − gds·Vds`, stamped block by block as in the source. -/
def addMOSFETTr (numNodes N : Int) (xPrev : List Frac) (e : Element)
    (G : MatF) (b : VecF) : MatF × VecF :=
  let nd := e.pins.getD 0 (-1)
  let ng := e.pins.getD 1 (-1)
  let ns := e.pins.getD 2 (-1)
  let vgs := prevVoltage xPrev ng - prevVoltage xPrev ns
  let vds := prevVoltage xPrev nd - prevVoltage xPrev ns
  let gm := nmosGetTransconductance vgs vds
  let gds := nmosGetOutputConductance vgs vds
  let cs := nmosGetDrainCurrent vgs vds - gm * vgs - gds * vds
  let Gb3 := mosfetStampGds numNodes N nd ns gds cs
    (mosfetStampDS numNodes N nd ns gm (mosfetStampDG numNodes N nd ng gm G)) b
  (mosfetStampSS numNodes N ns gm (mosfetStampSG numNodes N ns ng gm Gb3.1), Gb3.2)

/-- One arm of the transient `buildMNAMatrix` switch (again on
`tolower(name[0])`; only `case 'm'` consults the dynamic type through
`dynamic_cast`, and the PMOS branch prints a notice without stamping). -/
def stampTrElement (rexp : Frac → Frac) (numNodes N : Int) (vsIdx : List (String × Int))
    (stepTime : Frac) (xPrev : List Frac) (Gb : MatF × VecF) (e : Element) : MatF × VecF :=
  if e.name.isEmpty then Gb
  else
    let t := nameTypeChar e
    if t = 'r' then (addResistor numNodes N e Gb.1, Gb.2)
    else if t = 'c' then addCapacitorTr numNodes N stepTime xPrev e Gb.1 Gb.2
    else if t = 'l' then addInductorTr numNodes N stepTime e Gb.1 Gb.2
    else if t = 'v' then addVoltageSource numNodes N vsIdx e Gb.1 Gb.2
    else if t = 'd' then addDiodeTr rexp numNodes N xPrev e Gb.1 Gb.2
    else if t = 'm' then
      match e.tag with
      | .nmosfet => addMOSFETTr numNodes N xPrev e Gb.1 Gb.2
      | _ => Gb
    else Gb

/-- `TransientAnalysis::buildMNAMatrix`: clear, then stamp all elements. -/
def buildMNAMatrixTr (rexp : Frac → Frac) (elems : List Element) (numNodes N : Int)
    (vsIdx : List (String × Int)) (stepTime : Frac) (xPrev : List Frac) : MatF × VecF :=
  elems.foldl (stampTrElement rexp numNodes N vsIdx stepTime xPrev)
    (fun _ _ => fZero, fun _ => fZero)

/-- One arm of the `initializeIC` stamping switch: only resistors and voltage
sources are stamped for the initial DC solve (capacitors are ignored, and the
switch has no other cases at all). -/
def stampICElement (numNodes N : Int) (vsIdx : List (String × Int))
    (Gb : MatF × VecF) (e : Element) : MatF × VecF :=
  if e.name.isEmpty then Gb
  else
    let t := nameTypeChar e
    if t = 'r' then (addResistor numNodes N e Gb.1, Gb.2)
    else if t = 'v' then addVoltageSource numNodes N vsIdx e Gb.1 Gb.2
    else Gb

def buildICMatrix (elems : List Element) (numNodes N : Int)
    (vsIdx : List (String × Int)) : MatF × VecF :=
  elems.foldl (stampICElement numNodes N vsIdx) (fun _ _ => fZero, fun _ => fZero)

/-! ### Gaussian elimination with partial pivoting

Identical in `dc_analysis.cpp` and `transient_analysis.cpp`: for each column,
swap in the row with the largest absolute entry, fail when the pivot magnitude
is below `1e-12`, eliminate below, then back-substitute. -/

/-- The singular-pivot threshold `EPSILON = 1e-12`. -/
def gaussEps : Frac := ⟨1, 1000000000000⟩

/-- The pivot search: `maxRow` starts at `i` and moves to `k` only on a
strictly larger `|G[k][i]|`. -/
def pivotRow (G : MatF) (n i : Nat) : Nat :=
  (List.range' (i + 1) (n - (i + 1))).foldl
    (fun (maxRow k : Nat) =>
      if Frac.blt (Frac.fabs (G (maxRow : Int) (i : Int))) (Frac.fabs (G (k : Int) (i : Int)))
      then k else maxRow)
    i

def swapRows (G : MatF) (i j : Int) : MatF :=
  fun r c => if r = i then G j c else if r = j then G i c else G r c

def swapVec (b : VecF) (i j : Int) : VecF :=
  fun r => if r = i then b j else if r = j then b i else b r

/-- The elimination pass for column `i`: each row `k > i` subtracts
`factor = G[k][i]/G[i][i]` times row `i` (columns `i … n−1`) and the same
multiple of `b[i]`; row `i` itself is untouched during the pass, so the
in-place C++ loops compute exactly this. -/
def elimColumn (n i : Nat) (G : MatF) (b : VecF) : MatF × VecF :=
  let ii : Int := (i : Int)
  (fun r c =>
    if (ii < r ∧ r < (n : Int)) ∧ (ii ≤ c ∧ c < (n : Int)) then
      G r c - G r ii / G ii ii * G ii c
    else G r c,
   fun r =>
    if ii < r ∧ r < (n : Int) then b r - G r ii / G ii ii * b ii else b r)

/-- One column of the forward phase: pivot, swap (only when the pivot row
moved), singular check, eliminate. -/
def geColumn (n : Nat) (s : MatF × VecF) (i : Nat) : Option (MatF × VecF) :=
  let maxRow := pivotRow s.1 n i
  let G1 := if maxRow ≠ i then swapRows s.1 (i : Int) (maxRow : Int) else s.1
  let b1 := if maxRow ≠ i then swapVec s.2 (i : Int) (maxRow : Int) else s.2
  if Frac.blt (Frac.fabs (G1 (i : Int) (i : Int))) gaussEps then none
  else some (elimColumn n i G1 b1)

/-- The forward phase over all columns (`return false` aborts the loop). -/
def geForward (n : Nat) (G : MatF) (b : VecF) : Option (MatF × VecF) :=
  (List.range n).foldlM (geColumn n) (G, b)

/-- Back substitution, building `x` from row `n−1` upwards; `acc` holds
`x_{i+1} … x_{n−1}` when row `i` is processed. -/
def backSubAux (n : Nat) (G : MatF) (b : VecF) : Nat → List Frac → List Frac
  | 0, acc => acc
  | i + 1, acc =>
    let ii : Int := (i : Int)
    let s := (List.range (n - (i + 1))).foldl
      (fun (acc2 : Frac) (k : Nat) => acc2 - G ii (ii + 1 + (k : Int)) * acc.getD k fZero) (b ii)
    backSubAux n G b i (s / G ii ii :: acc)

def backSubstitute (n : Nat) (G : MatF) (b : VecF) : List Frac :=
  backSubAux n G b n []

/-- `gaussianElimination`: `none` exactly when a pivot magnitude falls below
`1e-12` (the C++ returns `false` and leaves `x` unwritten). -/
def gaussianElimination (n : Nat) (G : MatF) (b : VecF) : Option (List Frac) :=
  (geForward n G b).map (fun s => backSubstitute n s.1 s.2)

/-- `TransientAnalysis::saveTimePoint`: node 0 is 0.0, node `i ≥ 1` reads
`x[i−1]` when present; each indexed voltage source contributes its solution
entry (the C++ iterates the `std::map` in name order; the order of this list
is immaterial to every property below). -/
def saveTimePoint (numNodes : Int) (vsIdx : List (String × Int)) (x : List Frac)
    (t : Frac) : TimePoint :=
  ⟨t,
   (List.range numNodes.toNat).map (fun (i : Nat) =>
     if i = 0 then fZero
     else if (i : Int) - 1 < (x.length : Int) then x.getD (i - 1) fZero else fZero),
   vsIdx.filterMap (fun p =>
     if p.2 < (x.length : Int) then
       some (p.1, if 0 ≤ p.2 then x.getD p.2.toNat fZero else fZero)
     else none)⟩

/-- The mutable state of `TransientAnalysis::solve`: current time, `x_prev`,
`x`, and the result log. -/
structure TranState where
  t : Frac
  xPrev : List Frac
  x : List Frac
  results : List TimePoint
deriving DecidableEq

/-- One iteration of the `while (currentTime < stopTime)` body: advance time,
rebuild the matrix from `x_prev`, solve, save a `TimePoint`, copy `x` to
`x_prev` (`none` when `gaussianElimination` reports a singular pivot, in which
case the C++ breaks out of the loop without saving). -/
def stepOnce (rexp : Frac → Frac) (elems : List Element) (numNodes N : Int)
    (vsIdx : List (String × Int)) (settings : TranSettings) (st : TranState) :
    Option TranState :=
  let tNew := st.t + settings.stepTime
  let Gb := buildMNAMatrixTr rexp elems numNodes N vsIdx settings.stepTime st.xPrev
  match gaussianElimination N.toNat Gb.1 Gb.2 with
  | none => none
  | some x => some ⟨tNew, x, x, st.results ++ [saveTimePoint numNodes vsIdx x tNew]⟩

/-- The time-stepping loop, fuelled (the C++ `while` loop has no iteration
bound; every run examined below is reached with sufficient fuel). -/
def tranLoop (rexp : Frac → Frac) (elems : List Element) (numNodes N : Int)
    (vsIdx : List (String × Int)) (settings : TranSettings) :
    Nat → TranState → TranState
  | 0, st => st
  | fuel + 1, st =>
    if Frac.blt st.t settings.stopTime then
      match stepOnce rexp elems numNodes N vsIdx settings st with
      | none => st
      | some st1 => tranLoop rexp elems numNodes N vsIdx settings fuel st1
    else st

/-- `k` successful loop iterations in a row (each entered with the loop guard
true and each linear solve succeeding). -/
def iterSteps (rexp : Frac → Frac) (elems : List Element) (numNodes N : Int)
    (vsIdx : List (String × Int)) (settings : TranSettings) :
    Nat → TranState → Option TranState
  | 0, st => some st
  | k + 1, st =>
    if Frac.blt st.t settings.stopTime then
      match stepOnce rexp elems numNodes N vsIdx settings st with
      | none => none
      | some st1 => iterSteps rexp elems numNodes N vsIdx settings k st1
    else none

/-- The state right after `initializeIC` and the initial `saveTimePoint`: a
DC solve over resistor/voltage-source stamps seeds `x` and `x_prev` (both stay
at the constructor's zero vectors when that solve fails, which only prints a
message), and the initial point is logged at `startTime`. -/
def tranInitState (elems : List Element) (numNodes : Int) (settings : TranSettings) :
    TranState :=
  let N := matrixSize elems numNodes
  let vsIdx := (buildVSIndex elems numNodes).1
  let Gb := buildICMatrix elems numNodes N vsIdx
  let xic :=
    match gaussianElimination N.toNat Gb.1 Gb.2 with
    | some x => x
    | none => List.replicate N.toNat fZero
  ⟨settings.startTime, xic, xic,
   [saveTimePoint numNodes vsIdx xic settings.startTime]⟩

/-- `TransientAnalysis::solve` for a run constructed on `elems`/`numNodes`:
initial conditions, initial point, then the fuelled step loop. -/
def tranSolve (rexp : Frac → Frac) (elems : List Element) (numNodes : Int)
    (settings : TranSettings) (fuel : Nat) : TranState :=
  tranLoop rexp elems numNodes (matrixSize elems numNodes)
    (buildVSIndex elems numNodes).1 settings fuel
    (tranInitState elems numNodes settings)

/-- The settings produced by `parseCommand` for the directive `.tran 1u 10u`:
`step = parseValue "1u"`, `stop = parseValue "10u"`, `start = 0`. -/
def tranDirectiveSettings : TranSettings :=
  ⟨(parseValue "1u").value, (parseValue "10u").value, fZero⟩

/-! ## Specification-side value grammar (for the `ValueFormat` claim)

A second, spec-side definition (deliberately *not* read off the code): §4.1 of
the specification calls an input interpretable when it is "a number with an
optional engineering suffix", case-insensitively.  `specInterpretable` decides
that grammar so it can be compared with what `parseValue` actually does. -/

/-- Full-string decimal number: optional sign, digits with an optional decimal
point (at least one digit), optional exponent, nothing left over. -/
def specNumber (cs : List Char) : Bool :=
  let body :=
    match cs with
    | '-' :: t => t
    | '+' :: t => t
    | t => t
  let ipRest := spanDigits body
  let fpRest : List Char × List Char :=
    match ipRest.2 with
    | '.' :: t => spanDigits t
    | r => ([], r)
  if ipRest.1.isEmpty ∧ fpRest.1.isEmpty then false
  else
    match fpRest.2 with
    | [] => true
    | 'e' :: t =>
      let ebody :=
        match t with
        | '+' :: u => u
        | '-' :: u => u
        | u => u
      decide (¬ebody.isEmpty = true) && ebody.all isAsciiDigit
    | _ => false

/-- The spec's suffix grammar: `meg` first, then the single-character
suffixes. -/
def specStripSuffix (cs : List Char) : List Char :=
  if 3 ≤ cs.length ∧ cs.drop (cs.length - 3) = ['m', 'e', 'g'] then
    cs.take (cs.length - 3)
  else
    match cs.getLast? with
    | some c =>
      if c = 't' ∨ c = 'g' ∨ c = 'k' ∨ c = 'm' ∨ c = 'u' ∨ c = 'n' ∨ c = 'p' ∨ c = 'f' then
        cs.dropLast
      else cs
    | none => cs

/-- Spec-side: the string can be interpreted as a number with an optional
engineering suffix (case-insensitive). -/
def specInterpretable (s : String) : Bool :=
  specNumber (specStripSuffix (s.data.map asciiToLower))

/-! ## Concrete instances used by the claim theorems below -/

/-- A stand-in exponential: the transient development is parameterised by an
arbitrary `rexp`, and none of the concrete circuits below contains a diode, so
the choice is never consulted. -/
def expZero : Frac → Frac := fun _ => fZero

/-- The parsed circuit of the netlist line `V1 1 1 5`: one voltage source with
both pins on node 1 (a legal line; the MNA matrix it produces is singular). -/
def singularTranCircuit : List Element := [⟨"V1", .vsource, ⟨5, 1⟩, "", [1, 1]⟩]

/-- The parsed circuit of the netlist line `R1 1 0 1k`: every per-step solve
succeeds on it. -/
def resistorTranCircuit : List Element := [⟨"R1", .resistor, ⟨1000, 1⟩, "", [1, 0]⟩]

/-- A circuit state with two resistors on distinct nodes 1 and 2 and a
junction carrying node 2 (as produced by `createJunctionNode`). -/
def junctionMergeState : CMState :=
  ⟨[⟨"R1", .resistor, ⟨1000, 1⟩, "", [1, -1]⟩, ⟨"R2", .resistor, ⟨1000, 1⟩, "", [2, -1]⟩],
   [], [⟨2, fZero, fZero, []⟩],
   [("R", 2), ("C", 0), ("L", 0), ("V", 0), ("I", 0), ("Q", 0), ("U", 0), ("D", 0), ("GND", 0)],
   [0, 1, 2], 3⟩

/-- The editor-operation sequence of the ground-invariant claim: add a ground
symbol and three resistors, ground `R1` pin 0, wire `R2`–`R3` onto a fresh node,
then wire `R2` (node 1) to `R1` (node 0), which merges node 0 into node 1. -/
def groundMergeFinal : CMState :=
  let s1 := (addComponent initCMState "ground").1
  let s2 := (addComponent s1 "resistor").1
  let s3 := (addComponent s2 "resistor").1
  let s4 := (addComponent s3 "resistor").1
  let s5 := (connectToGround s4 1 0 0 0 []).2
  let s6 := (connectPins s5 2 0 3 0 []).2
  (connectPins s6 2 0 1 0 []).2

/-- Pin `j` of component `i` as `connectPins`/`mergeNodes` observe it. -/
def CMState.pinAt (st : CMState) (i : Nat) (j : Int) : Int :=
  (st.comp i).nodeForPin j

/-- Name-based voltage-source census on the element list (the property the
constructor's counting loop implements). -/
def countVNamed (elems : List Element) : Nat :=
  (elems.filter (fun e => !e.name.isEmpty && decide (nameTypeChar e = 'v'))).length

/-- The time reached after `k` iterations of `currentTime += stepTime`. -/
def addSteps (step : Frac) : Nat → Frac → Frac
  | 0, t => t
  | k + 1, t => addSteps step k (t + step)

/-- A circuit state holding a ground symbol and a resistor whose pin 0 is
already grounded. -/
def groundedPinState : CMState :=
  ⟨[⟨"GND1", .ground, fZero, "GND", [0]⟩, ⟨"R1", .resistor, ⟨1000, 1⟩, "", [0, -1]⟩],
   [], [], initCMState.counters, [0], 1⟩

/-! # Theorems -/

/-! ## Helper lemmas -/

theorem getNodeNumber_elements (st : ParserState) (n : String) :
    (getNodeNumber st n).2.elements = st.elements := by
  simp only [getNodeNumber]
  split <;> rfl

theorem parseResistor_elements (st : ParserState) (tokens : List String)
    (h : ¬tokens.length < 4) :
    (parseResistor st tokens).elements = st.elements ++
      [mkTwoPin .resistor (tokens.getD 0 "") (parseValue (tokens.getD 3 "")).value
        (getNodeNumber st (tokens.getD 1 "")).1
        (getNodeNumber (getNodeNumber st (tokens.getD 1 "")).2 (tokens.getD 2 "")).1] := by
  unfold parseResistor
  rw [if_neg h]
  simp [getNodeNumber_elements]

theorem parseCapacitor_elements (st : ParserState) (tokens : List String) :
    (parseCapacitor st tokens).elements = st.elements ++
      [mkTwoPin .capacitor (tokens.getD 0 "") (parseValue (tokens.getD 3 "")).value
        (getNodeNumber st (tokens.getD 1 "")).1
        (getNodeNumber (getNodeNumber st (tokens.getD 1 "")).2 (tokens.getD 2 "")).1] := by
  unfold parseCapacitor
  simp [getNodeNumber_elements]

theorem parseVoltageSource_elements (st : ParserState) (tokens : List String) :
    (parseVoltageSource st tokens).elements = st.elements ++
      [mkTwoPin .vsource (tokens.getD 0 "")
        (if 4 ≤ tokens.length then
          if 5 ≤ tokens.length ∧ (tokens.getD 3 "" = "DC" ∨ tokens.getD 3 "" = "dc") then
            (parseValue (tokens.getD 4 "")).value
          else (parseValue (tokens.getD 3 "")).value
        else fZero)
        (getNodeNumber st (tokens.getD 1 "")).1
        (getNodeNumber (getNodeNumber st (tokens.getD 1 "")).2 (tokens.getD 2 "")).1] := by
  unfold parseVoltageSource
  simp [getNodeNumber_elements]

/-! ## C3 — the `meg` suffix -/

/-- Claim C3 (code bug): the claim (and the spec) say `parseValue` matches the
three-character suffix `meg` before the single-character `m`, so that
`parse_value("1meg") = 1e6`.  In the source the `meg` test sits inside
`case 'm'` of a switch on the *last* character of the string; `"1meg"` ends in
`g`, so `case 'g'` fires first and the result is `1e9` (`std::stod("1me")`
parses the prefix `1`); the `meg` test is unreachable, because a string whose
last character is `m` cannot end in `"meg"`.  The single-character suffixes do
map exactly as claimed. -/
theorem parseValue_matches_trailing_g_before_meg :
    (parseValue "1meg").value.toRat = 1000000000 ∧
    ((parseValue "1meg").value.toRat = 1000000 → False) ∧
    (parseValue "1t").value.toRat = 1000000000000 ∧
    (parseValue "1g").value.toRat = 1000000000 ∧
    (parseValue "1k").value.toRat = 1000 ∧
    (parseValue "1m").value.toRat = 1 / 1000 ∧
    (parseValue "1u").value.toRat = 1 / 1000000 ∧
    (parseValue "1n").value.toRat = 1 / 1000000000 ∧
    (parseValue "1p").value.toRat = 1 / 1000000000000 ∧
    (parseValue "1f").value.toRat = 1 / 1000000000000000 := by
  have hmeg : (parseValue "1meg").value = ⟨1000000000, 1⟩ := by decide
  have ht : (parseValue "1t").value = ⟨1000000000000, 1⟩ := by decide
  have hg : (parseValue "1g").value = ⟨1000000000, 1⟩ := by decide
  have hk : (parseValue "1k").value = ⟨1000, 1⟩ := by decide
  have hm : (parseValue "1m").value = ⟨1, 1000⟩ := by decide
  have hu : (parseValue "1u").value = ⟨1, 1000000⟩ := by decide
  have hn : (parseValue "1n").value = ⟨1, 1000000000⟩ := by decide
  have hp : (parseValue "1p").value = ⟨1, 1000000000000⟩ := by decide
  have hf : (parseValue "1f").value = ⟨1, 1000000000000000⟩ := by decide
  rw [hmeg, ht, hg, hk, hm, hu, hn, hp, hf]
  norm_num [Frac.toRat]

/-! ## C4 — component-line dispatch -/

/-- Claim C4 (counterexample): the claim says an `l` line yields an inductor,
a `d` line a diode and an `m` line a MOSFET.  In the source the switch has no
`l`/`d` cases at all (such lines fall to the `default` warning and construct
nothing), and `case 'm'` contains only a commented-out call, so it constructs
nothing and does not even warn. -/
theorem parseComponent_l_d_m_construct_nothing :
    (parseComponent initParserState ["l1", "1", "0", "1m"]).state.elements = [] ∧
    (parseComponent initParserState ["l1", "1", "0", "1m"]).warned = true ∧
    (parseComponent initParserState ["d1", "1", "0", "D1N4148"]).state.elements = [] ∧
    (parseComponent initParserState ["d1", "1", "0", "D1N4148"]).warned = true ∧
    (parseComponent initParserState ["m1", "2", "1", "0", "0", "nmos"]).state.elements = [] ∧
    (parseComponent initParserState ["m1", "2", "1", "0", "0", "nmos"]).warned = false := by
  decide

/-- Claim C4 (amended): for every component line with at least 4 tokens and a
nonempty first token, the parser dispatches on the case-folded first character
of the first token: `r` appends a resistor, `c` a capacitor and `v` a voltage
source (each named after the first token, with no warning); `i` and `m` are
recognised switch cases that construct nothing and warn nothing; every other
first character — including `l` and `d` — produces only the unknown-component
warning and no element. -/
theorem parseComponent_dispatch (st : ParserState) (tokens : List String)
    (hlen : 4 ≤ tokens.length)
    (_hne : (tokens.getD 0 "").isEmpty = false) :
    (asciiToLower ((tokens.getD 0 "").data.getD 0 (Char.ofNat 0)) = 'r' →
      ∃ e, (parseComponent st tokens).state.elements = st.elements ++ [e] ∧
        e.tag = .resistor ∧ e.name = tokens.getD 0 "" ∧
        (parseComponent st tokens).warned = false) ∧
    (asciiToLower ((tokens.getD 0 "").data.getD 0 (Char.ofNat 0)) = 'c' →
      ∃ e, (parseComponent st tokens).state.elements = st.elements ++ [e] ∧
        e.tag = .capacitor ∧ e.name = tokens.getD 0 "" ∧
        (parseComponent st tokens).warned = false) ∧
    (asciiToLower ((tokens.getD 0 "").data.getD 0 (Char.ofNat 0)) = 'v' →
      ∃ e, (parseComponent st tokens).state.elements = st.elements ++ [e] ∧
        e.tag = .vsource ∧ e.name = tokens.getD 0 "" ∧
        (parseComponent st tokens).warned = false) ∧
    (∀ c, asciiToLower ((tokens.getD 0 "").data.getD 0 (Char.ofNat 0)) = c →
      (c = 'i' ∨ c = 'm') → parseComponent st tokens = ⟨st, false⟩) ∧
    (∀ c, asciiToLower ((tokens.getD 0 "").data.getD 0 (Char.ofNat 0)) = c →
      c ≠ 'r' → c ≠ 'c' → c ≠ 'v' → c ≠ 'i' → c ≠ 'm' →
      parseComponent st tokens = ⟨st, true⟩) := by
  have h3 : ¬tokens.length < 3 := by omega
  have h4 : ¬tokens.length < 4 := by omega
  refine ⟨fun hr => ?_, fun hc => ?_, fun hv => ?_, fun c hcdef him => ?_, fun c hcdef r1 r2 r3 r4 r5 => ?_⟩
  · have hpc : parseComponent st tokens = ⟨parseResistor st tokens, false⟩ := by
      simp only [parseComponent]
      rw [if_neg h3, if_pos hr]
    exact ⟨_, by rw [hpc]; exact parseResistor_elements st tokens h4, rfl, rfl, by rw [hpc]⟩
  · by_cases hr : asciiToLower ((tokens.getD 0 "").data.getD 0 (Char.ofNat 0)) = 'r'
    · exact absurd hc (by rw [hr]; decide)
    have hpc : parseComponent st tokens = ⟨parseCapacitor st tokens, false⟩ := by
      simp only [parseComponent]
      rw [if_neg h3, if_neg hr, if_pos hc]
    exact ⟨_, by rw [hpc]; exact parseCapacitor_elements st tokens, rfl, rfl, by rw [hpc]⟩
  · by_cases hr : asciiToLower ((tokens.getD 0 "").data.getD 0 (Char.ofNat 0)) = 'r'
    · exact absurd hv (by rw [hr]; decide)
    by_cases hc : asciiToLower ((tokens.getD 0 "").data.getD 0 (Char.ofNat 0)) = 'c'
    · exact absurd hv (by rw [hc]; decide)
    have hpc : parseComponent st tokens = ⟨parseVoltageSource st tokens, false⟩ := by
      simp only [parseComponent]
      rw [if_neg h3, if_neg hr, if_neg hc, if_pos hv]
    exact ⟨_, by rw [hpc]; exact parseVoltageSource_elements st tokens, rfl, rfl, by rw [hpc]⟩
  · subst hcdef
    rcases him with hi | hm
    · simp only [parseComponent]
      rw [if_neg h3, if_neg (by rw [hi]; decide), if_neg (by rw [hi]; decide),
        if_neg (by rw [hi]; decide), if_pos hi]
    · by_cases hi : asciiToLower ((tokens.getD 0 "").data.getD 0 (Char.ofNat 0)) = 'i'
      · simp only [parseComponent]
        rw [if_neg h3, if_neg (by rw [hi]; decide), if_neg (by rw [hi]; decide),
          if_neg (by rw [hi]; decide), if_pos hi]
      · simp only [parseComponent]
        rw [if_neg h3, if_neg (by rw [hm]; decide), if_neg (by rw [hm]; decide),
          if_neg (by rw [hm]; decide), if_neg hi, if_pos hm]
  · subst hcdef
    simp only [parseComponent]
    rw [if_neg h3, if_neg r1, if_neg r2, if_neg r3, if_neg r4, if_neg r5]

/-- Witness for the amended C4 dispatch theorem: the line `R1 1 0 1k`. -/
theorem parseComponent_dispatch_witness :
    ∃ e, (parseComponent initParserState ["R1", "1", "0", "1k"]).state.elements =
        initParserState.elements ++ [e] ∧
      e.tag = .resistor ∧ e.name = "R1" ∧
      (parseComponent initParserState ["R1", "1", "0", "1k"]).warned = false := by
  have h := parseComponent_dispatch initParserState ["R1", "1", "0", "1k"]
    (by decide) (by decide)
  exact h.1 (by decide)


/-! ## C6 — the ground-pin invariant -/

/-- Claim C6 (code bug): `Ground` documents that its pin is "always node 0"
and shadows `setNodeForPin` to enforce it, but the shadow is not `virtual`, so
`mergeNodes` (which iterates components through `CircuitElement*`) bypasses it.
After the editor sequence of `groundMergeFinal` — ground `R1`, wire `R2`–`R3`
(fresh node 1), then wire `R2` to `R1`, which merges node 0 into node 1 — the
ground symbol `GND1` sits on node 1 and node 0 has even been erased from the
used-node set, contradicting the claimed invariant. -/
theorem ground_pin_moved_off_node_zero :
    (groundMergeFinal.comp 0).tag = .ground ∧
    (groundMergeFinal.comp 0).name = "GND1" ∧
    (groundMergeFinal.comp 0).pins = [1] ∧
    ((0 : Int) ∈ groundMergeFinal.usedNodes → False) := by decide

/-! ## C7 — `connectToGround` idempotence -/

/-- Claim C7: `connectToGround` on a pin whose node id is already 0 returns
`false` and leaves the entire circuit state unchanged — components, wires,
junctions, counters, the node set and the id counter; in particular no wire is
appended. -/
theorem connectToGround_idempotent_on_grounded (st : CMState) (ci : Nat) (pin : Int)
    (gi : Nat) (gpin : Int) (path : List Point)
    (h : (st.comp ci).nodeForPin pin = 0) :
    connectToGround st ci pin gi gpin path = (false, st) := by
  simp [connectToGround, h]

/-- Witness for C7: a resistor pin already on node 0. -/
theorem connectToGround_idempotent_on_grounded_witness :
    connectToGround groundedPinState 1 0 0 0 [] = (false, groundedPinState) ∧
    (groundedPinState.comp 1).nodeForPin 0 = 0 :=
  ⟨connectToGround_idempotent_on_grounded groundedPinState 1 0 0 0 [] (by decide), by decide⟩

/-! ## C8 — unparseable values -/

/-- Claim C8 (counterexample): the claim says every string that is not
interpretable as a number with an optional engineering suffix fails with
`ValueFormat` "rather than returning a value".  The empty string is not
interpretable, yet `parseValue` returns the value `0.0` with no diagnostic at
all (the early `valueStr.empty()` return). -/
theorem parseValue_empty_returns_silently :
    specInterpretable "" = false ∧ parseValue "" = ⟨fZero, false⟩ := by decide

/-- Claim C8 (amended): `parseValue` always returns a value.  For every
*nonempty* input whose suffix-stripped remainder `std::stod` cannot parse, it
prints the `ValueFormat` diagnostic and returns `0.0`; the empty string
returns `0.0` silently (see the counterexample). -/
theorem parseValue_unparseable_reports_and_returns_zero (s : String)
    (hne : s.isEmpty = false)
    (hfail : stod (String.mk (suffixSplit (s.data.map asciiToLower)).2) = none) :
    parseValue s = ⟨fZero, true⟩ := by
  simp [parseValue, hne, hfail]

/-- Witness for the amended C8 theorem: `"abc"` (also not interpretable by the
spec grammar). -/
theorem parseValue_unparseable_witness :
    parseValue "abc" = ⟨fZero, true⟩ ∧ specInterpretable "abc" = false :=
  ⟨parseValue_unparseable_reports_and_returns_zero "abc" (by decide) (by decide), by decide⟩

/-! ## List access lemmas used by the connectivity proofs -/

theorem listGetD_map {α β : Type} (l : List α) (f : α → β) (n : Nat) (d : α) (d2 : β)
    (h : n < l.length) : (l.map f).getD n d2 = f (l.getD n d) := by
  induction l generalizing n with
  | nil => exact absurd h (by simp)
  | cons a t ih =>
    cases n with
    | zero => rfl
    | succ m => exact ih m (by simpa using h)

theorem listGetD_set_self {α : Type} (l : List α) (n : Nat) (v d : α)
    (h : n < l.length) : (l.set n v).getD n d = v := by
  induction l generalizing n with
  | nil => exact absurd h (by simp)
  | cons a t ih =>
    cases n with
    | zero => rfl
    | succ m => exact ih m (by simpa using h)

theorem listGetD_set_ne {α : Type} (l : List α) (n m : Nat) (v d : α)
    (h : n ≠ m) : (l.set n v).getD m d = l.getD m d := by
  induction l generalizing n m with
  | nil => rfl
  | cons a t ih =>
    cases n with
    | zero =>
      cases m with
      | zero => exact absurd rfl h
      | succ m2 => rfl
    | succ n2 =>
      cases m with
      | zero => rfl
      | succ m2 => exact ih n2 m2 (by omega)

theorem listGetD_ge {α : Type} (l : List α) (n : Nat) (d : α)
    (h : l.length ≤ n) : l.getD n d = d := by
  induction l generalizing n with
  | nil => cases n <;> rfl
  | cons a t ih =>
    cases n with
    | zero => exact absurd h (by simp)
    | succ m => exact ih m (by simpa using h)

/-! ## Element and state access lemmas -/

theorem pinCount_setNodeForPin (e : Element) (p v : Int) :
    (e.setNodeForPin p v).pinCount = e.pinCount := by
  unfold Element.setNodeForPin Element.pinCount
  split <;> simp

/-- Reading a pin after the base-class `setNodeForPin`: the written value when
the write was in range and the read hits the same index, otherwise the old
pin. -/
theorem nodeForPin_setNodeForPin (e : Element) (p v j : Int) :
    (e.setNodeForPin p v).nodeForPin j =
      if 0 ≤ p ∧ p < e.pinCount ∧ j = p then v else e.nodeForPin j := by
  by_cases hp : 0 ≤ p ∧ p < (e.pins.length : Int)
  · have hset : e.setNodeForPin p v = { e with pins := e.pins.set p.toNat v } := by
      unfold Element.setNodeForPin
      rw [if_pos hp]
    rw [hset]
    by_cases hj : j = p
    · subst hj
      have hcond : 0 ≤ j ∧ j < e.pinCount ∧ j = j := ⟨hp.1, hp.2, rfl⟩
      rw [if_pos hcond]
      unfold Element.nodeForPin
      dsimp only
      rw [List.length_set, if_pos hp]
      exact listGetD_set_self _ _ _ _ (by omega)
    · rw [if_neg (fun c => hj c.2.2)]
      unfold Element.nodeForPin
      dsimp only
      rw [List.length_set]
      by_cases hjr : 0 ≤ j ∧ j < (e.pins.length : Int)
      · rw [if_pos hjr, if_pos hjr]
        exact listGetD_set_ne _ _ _ _ _ (by omega)
      · rw [if_neg hjr, if_neg hjr]
  · have hset : e.setNodeForPin p v = e := by
      unfold Element.setNodeForPin
      rw [if_neg hp]
    rw [hset, if_neg (fun c => hp ⟨c.1, c.2.1⟩)]

/-- Reading a pin after the relabelling map of `mergeNodes`/`groundNode`. -/
theorem nodeForPin_relabel (e : Element) (bId aId j : Int) (hb : bId ≠ -1) :
    ({ e with pins := e.pins.map (fun n => if n = bId then aId else n) } : Element).nodeForPin j
      = if e.nodeForPin j = bId then aId else e.nodeForPin j := by
  unfold Element.nodeForPin
  simp only [List.length_map]
  by_cases hj : 0 ≤ j ∧ j < (e.pins.length : Int)
  · rw [if_pos hj, if_pos hj]
    rw [listGetD_map _ _ _ (-1) _ (by omega)]
  · rw [if_neg hj, if_neg hj, if_neg (fun h => hb h.symm)]

theorem comp_mergeNodes (st : CMState) (bId aId : Int) (i : Nat) (hne : bId ≠ aId) :
    (mergeNodes st bId aId).comp i =
      if i < st.components.length then
        { st.comp i with pins := (st.comp i).pins.map (fun n => if n = bId then aId else n) }
      else dummyElement := by
  unfold mergeNodes CMState.comp
  rw [if_neg hne]
  by_cases hi : i < st.components.length
  · rw [if_pos hi]
    exact listGetD_map _ _ _ dummyElement _ hi
  · rw [if_neg hi]
    exact listGetD_ge _ _ _ (by simpa using Nat.le_of_not_lt hi)

theorem comp_setCompPin (st : CMState) (ci : Nat) (p v : Int) (i : Nat)
    (hci : ci < st.components.length) :
    (st.setCompPin ci p v).comp i =
      if i = ci then (st.comp ci).setNodeForPin p v else st.comp i := by
  unfold CMState.setCompPin CMState.comp
  by_cases hic : i = ci
  · subst hic
    rw [if_pos rfl]
    exact listGetD_set_self _ _ _ _ hci
  · rw [if_neg hic]
    exact listGetD_set_ne _ _ _ _ _ (fun h => hic h.symm)

theorem components_length_mergeNodes (st : CMState) (bId aId : Int) :
    (mergeNodes st bId aId).components.length = st.components.length := by
  unfold mergeNodes
  split <;> simp

theorem components_length_setCompPin (st : CMState) (ci : Nat) (p v : Int) :
    (st.setCompPin ci p v).components.length = st.components.length := by
  unfold CMState.setCompPin
  simp

theorem mem_setInsert (l : List Int) (n x : Int) :
    x ∈ setInsert l n ↔ x ∈ l ∨ x = n := by
  unfold setInsert
  split
  · constructor
    · exact Or.inl
    · rintro (hx | rfl)
      · exact hx
      · assumption
  · simp

theorem not_mem_setErase_self (l : List Int) (n : Int) : n ∉ setErase l n := by
  simp [setErase, List.mem_filter]

/-! ## C5 — node merging (counterexample part) -/

/-- Claim C5 (counterexample): merging node 2 into node 1 through
`connect_pins` relabels every pin and wire and erases 2 from the node set, but
`mergeNodes` never touches junctions: the junction that carried the losing id 2
still carries 2 afterwards, while the claim requires every junction that
carried the losing id to carry the canonical id 1. -/
theorem connectPins_merge_leaves_junction_stale :
    (connectPins junctionMergeState 0 0 1 0 []).1 = true ∧
    (connectPins junctionMergeState 0 0 1 0 []).2.junctions = [⟨2, fZero, fZero, []⟩] ∧
    (connectPins junctionMergeState 0 0 1 0 []).2.usedNodes = [0, 1] ∧
    junctionMergeState.junctions = [⟨2, fZero, fZero, []⟩] := by decide


theorem pinCount_relabel (e : Element) (f : Int → Int) :
    ({ e with pins := e.pins.map f } : Element).pinCount = e.pinCount := by
  simp [Element.pinCount]

theorem dummyElement_nodeForPin (j : Int) : dummyElement.nodeForPin j = -1 := by
  unfold Element.nodeForPin dummyElement
  rw [if_neg (by simp)]

/-- Claim C5 (amended): when `connect_pins` joins two non-ground pins that
carry distinct node ids `a` and `b` (neither unconnected), the call succeeds,
every pin and every wire that carried the losing id `b` carries the surviving
id `a` afterwards (and the new wire is appended on `a`), and `b` is erased
from the used-node set — but junctions are left exactly as they were:
`mergeNodes` never relabels them (see the counterexample). -/
theorem connectPins_merge_relabels_pins_and_wires
    (st : CMState) (c1 c2 : Nat) (p1 p2 : Int) (path : List Point) (a b : Int)
    (hc : c1 ≠ c2)
    (hc1 : c1 < st.components.length) (hc2 : c2 < st.components.length)
    (hp1 : 0 ≤ p1 ∧ p1 < (st.comp c1).pinCount)
    (hp2 : 0 ≤ p2 ∧ p2 < (st.comp c2).pinCount)
    (hg1 : (st.comp c1).tag.typeName ≠ "ground")
    (hg2 : (st.comp c2).tag.typeName ≠ "ground")
    (hadef : a = (st.comp c1).nodeForPin p1) (hbdef : b = (st.comp c2).nodeForPin p2)
    (ha : a ≠ -1) (hb : b ≠ -1) (hab : a ≠ b) :
    (connectPins st c1 p1 c2 p2 path).1 = true ∧
    (connectPins st c1 p1 c2 p2 path).2.junctions = st.junctions ∧
    (connectPins st c1 p1 c2 p2 path).2.usedNodes = setInsert (setErase st.usedNodes b) a ∧
    (connectPins st c1 p1 c2 p2 path).2.wires =
      (st.wires.map (fun w => if w.nodeId = b then { w with nodeId := a } else w)) ++
        [⟨some c1, p1, some c2, p2, a, path⟩] ∧
    b ∉ (connectPins st c1 p1 c2 p2 path).2.usedNodes ∧
    ∀ i j, (connectPins st c1 p1 c2 p2 path).2.pinAt i j =
      if st.pinAt i j = b then a else st.pinAt i j := by
  have hbne : b ≠ a := fun h => hab h.symm
  have hstep : connectPins st c1 p1 c2 p2 path =
      finishConnect (mergeNodes st b a) c1 p1 c2 p2 a path := by
    simp only [connectPins]
    rw [if_neg hc]
    rw [if_neg (show ¬(p1 < 0 ∨ (st.comp c1).pinCount ≤ p1) by omega)]
    rw [if_neg (show ¬(p2 < 0 ∨ (st.comp c2).pinCount ≤ p2) by omega)]
    rw [if_neg hg1, if_neg hg2, ← hadef, ← hbdef]
    rw [if_neg (fun h => ha h.1)]
    rw [if_neg (fun h => hb h.2)]
    rw [if_neg (fun h => ha h.1)]
    rw [if_neg hab]
  have hM : mergeNodes st b a =
      { st with
        components := st.components.map (fun c =>
          { c with pins := c.pins.map (fun n => if n = b then a else n) }),
        wires := st.wires.map (fun w =>
          if w.nodeId = b then { w with nodeId := a } else w),
        usedNodes := setInsert (setErase st.usedNodes b) a } := by
    unfold mergeNodes
    rw [if_neg hbne]
  refine ⟨?_, ?_, ?_, ?_, ?_, ?_⟩
  · rw [hstep]; rfl
  · rw [hstep]
    show ((mergeNodes st b a).setCompPin c1 p1 a |>.setCompPin c2 p2 a).junctions
      = st.junctions
    rw [show ∀ s : CMState, ∀ ci p v, (s.setCompPin ci p v).junctions = s.junctions
      from fun s ci p v => rfl]
    rw [show ∀ s : CMState, ∀ ci p v, (s.setCompPin ci p v).junctions = s.junctions
      from fun s ci p v => rfl]
    rw [hM]
  · rw [hstep]
    show ((mergeNodes st b a).setCompPin c1 p1 a |>.setCompPin c2 p2 a).usedNodes
      = setInsert (setErase st.usedNodes b) a
    rw [show ∀ s : CMState, ∀ ci p v, (s.setCompPin ci p v).usedNodes = s.usedNodes
      from fun s ci p v => rfl]
    rw [show ∀ s : CMState, ∀ ci p v, (s.setCompPin ci p v).usedNodes = s.usedNodes
      from fun s ci p v => rfl]
    rw [hM]
  · rw [hstep]
    show ((mergeNodes st b a).setCompPin c1 p1 a |>.setCompPin c2 p2 a).wires ++
        [⟨some c1, p1, some c2, p2, a, path⟩] =
      (st.wires.map (fun w => if w.nodeId = b then { w with nodeId := a } else w)) ++
        [⟨some c1, p1, some c2, p2, a, path⟩]
    rw [show ∀ s : CMState, ∀ ci p v, (s.setCompPin ci p v).wires = s.wires
      from fun s ci p v => rfl]
    rw [show ∀ s : CMState, ∀ ci p v, (s.setCompPin ci p v).wires = s.wires
      from fun s ci p v => rfl]
    rw [hM]
  · rw [hstep]
    show b ∉ ((mergeNodes st b a).setCompPin c1 p1 a |>.setCompPin c2 p2 a).usedNodes
    rw [show ∀ s : CMState, ∀ ci p v, (s.setCompPin ci p v).usedNodes = s.usedNodes
      from fun s ci p v => rfl]
    rw [show ∀ s : CMState, ∀ ci p v, (s.setCompPin ci p v).usedNodes = s.usedNodes
      from fun s ci p v => rfl]
    rw [hM]
    intro hmem
    rcases (mem_setInsert _ _ _).1 hmem with h | h
    · exact not_mem_setErase_self _ _ h
    · exact hbne h
  · intro i j
    rw [hstep]
    have hlenM : c1 < (mergeNodes st b a).components.length := by
      rw [components_length_mergeNodes]; exact hc1
    have hlenA : c2 < ((mergeNodes st b a).setCompPin c1 p1 a).components.length := by
      rw [components_length_setCompPin, components_length_mergeNodes]; exact hc2
    show (((mergeNodes st b a).setCompPin c1 p1 a |>.setCompPin c2 p2 a).comp i).nodeForPin j
      = if st.pinAt i j = b then a else st.pinAt i j
    rw [comp_setCompPin _ c2 p2 a i hlenA]
    by_cases hi2 : i = c2
    · subst hi2
      rw [if_pos rfl, comp_setCompPin _ c1 p1 a i hlenM,
        if_neg (fun h => hc h.symm), comp_mergeNodes st b a i hbne, if_pos hc2]
      rw [nodeForPin_setNodeForPin]
      rw [pinCount_relabel]
      by_cases hj : j = p2
      · subst hj
        rw [if_pos ⟨hp2.1, hp2.2, rfl⟩]
        have : st.pinAt i j = b := by
          rw [hbdef]; rfl
        rw [this, if_pos rfl]
      · rw [if_neg (fun h => hj h.2.2), nodeForPin_relabel _ _ _ _ hb]
        rfl
    · rw [if_neg hi2, comp_setCompPin _ c1 p1 a i hlenM]
      by_cases hi1 : i = c1
      · subst hi1
        rw [if_pos rfl, comp_mergeNodes st b a i hbne, if_pos hc1]
        rw [nodeForPin_setNodeForPin, pinCount_relabel]
        by_cases hj : j = p1
        · subst hj
          rw [if_pos ⟨hp1.1, hp1.2, rfl⟩]
          have hsa : st.pinAt i j = a := by rw [hadef]; rfl
          rw [hsa, if_neg hab]
        · rw [if_neg (fun h => hj h.2.2), nodeForPin_relabel _ _ _ _ hb]
          rfl
      · rw [if_neg hi1, comp_mergeNodes st b a i hbne]
        by_cases hilen : i < st.components.length
        · rw [if_pos hilen, nodeForPin_relabel _ _ _ _ hb]
          rfl
        · rw [if_neg hilen]
          have hdum : st.pinAt i j = -1 := by
            show (st.components.getD i dummyElement).nodeForPin j = -1
            rw [listGetD_ge _ _ _ (Nat.le_of_not_lt hilen), dummyElement_nodeForPin]
          rw [dummyElement_nodeForPin, hdum, if_neg (fun h => hb h.symm)]

/-- Witness for the amended C5 theorem, on the two-resistor state with a
junction on the losing node 2. -/
theorem connectPins_merge_relabels_witness :
    (connectPins junctionMergeState 0 0 1 0 []).1 = true ∧
    (connectPins junctionMergeState 0 0 1 0 []).2.junctions = junctionMergeState.junctions ∧
    (connectPins junctionMergeState 0 0 1 0 []).2.usedNodes =
      setInsert (setErase junctionMergeState.usedNodes 2) 1 ∧
    (2 : Int) ∉ (connectPins junctionMergeState 0 0 1 0 []).2.usedNodes ∧
    (connectPins junctionMergeState 0 0 1 0 []).2.pinAt 1 0 = 1 := by
  have h := connectPins_merge_relabels_pins_and_wires junctionMergeState 0 1 0 0 [] 1 2
    (by decide) (by decide) (by decide) (by decide) (by decide) (by decide) (by decide)
    (by decide) (by decide) (by decide) (by decide) (by decide)
  refine ⟨h.1, h.2.1, h.2.2.1, h.2.2.2.2.1, ?_⟩
  have hp := h.2.2.2.2.2 1 0
  rw [hp]
  decide
/-! ## C9 — matrix sizing and name-based dispatch -/

theorem buildVSIndex_count (elems : List Element) (numNodes : Int) :
    (buildVSIndex elems numNodes).2 = (countVNamed elems : Int) := by
  suffices h : ∀ (l : List Element) (m : List (String × Int)) (k : Int),
      (List.foldl
        (fun acc e =>
          if e.name.isEmpty then acc
          else if nameTypeChar e = 'v' then
            (mapInsert acc.1 e.name ((numNodes - 1) + acc.2), acc.2 + 1)
          else acc)
        (m, k) l).2 = k + countVNamed l by
    have h2 := h elems [] 0
    unfold buildVSIndex
    rw [h2]
    omega
  intro l
  induction l with
  | nil => intro m k; simp [countVNamed]
  | cons e t ih =>
    intro m k
    rw [List.foldl_cons]
    by_cases h1 : e.name.isEmpty
    · rw [if_pos h1, ih]
      have : countVNamed (e :: t) = countVNamed t := by
        simp [countVNamed, List.filter, h1]
      rw [this]
    · by_cases h2 : nameTypeChar e = 'v'
      · rw [if_neg h1, if_pos h2, ih]
        have : countVNamed (e :: t) = countVNamed t + 1 := by
          simp [countVNamed, List.filter, h1, h2]
        rw [this]
        push_cast
        ring
      · rw [if_neg h1, if_neg h2, ih]
        have : countVNamed (e :: t) = countVNamed t := by
          simp [countVNamed, List.filter, h1, h2]
        rw [this]

/-- Claim C9: the MNA matrix side equals `(numNodes − 1)` plus the number of
elements whose name's first character case-folds to `v`, and the stamping
switch dispatches on that character, not on the element's dynamic type: an
element of any of the single-`double` two-terminal classes (which share the
value slot the `static_cast` reads) whose name starts with `v` or `V` is
stamped exactly as a voltage source of its value. -/
theorem dc_matrix_sized_and_stamped_by_name
    (elems : List Element) (numNodes N : Int) (vsIdx : List (String × Int))
    (Gb : MatF × VecF) (e : Element)
    (hname : e.name.isEmpty = false) (hv : nameTypeChar e = 'v')
    (_htag : e.tag = .resistor ∨ e.tag = .capacitor ∨ e.tag = .inductor ∨ e.tag = .vsource) :
    matrixSize elems numNodes = numNodes - 1 + (countVNamed elems : Int) ∧
    stampDCElement numNodes N vsIdx Gb e = addVoltageSource numNodes N vsIdx e Gb.1 Gb.2 := by
  constructor
  · unfold matrixSize
    rw [buildVSIndex_count]
  · simp [stampDCElement, hname, hv]

/-- Witness for C9: a *resistor-tagged* element named `V9` is counted and
stamped as a voltage source. -/
theorem dc_matrix_sized_and_stamped_by_name_witness :
    matrixSize [⟨"V9", .resistor, ⟨100, 1⟩, "", [1, 0]⟩, ⟨"R1", .resistor, ⟨50, 1⟩, "", [1, 2]⟩] 3 =
      3 - 1 + (countVNamed [⟨"V9", .resistor, ⟨100, 1⟩, "", [1, 0]⟩, ⟨"R1", .resistor, ⟨50, 1⟩, "", [1, 2]⟩] : Int) ∧
    stampDCElement 3 3 [("V9", 2)] (fun _ _ => fZero, fun _ => fZero)
        ⟨"V9", .resistor, ⟨100, 1⟩, "", [1, 0]⟩ =
      addVoltageSource 3 3 [("V9", 2)] ⟨"V9", .resistor, ⟨100, 1⟩, "", [1, 0]⟩
        (fun _ _ => fZero) (fun _ => fZero) :=
  dc_matrix_sized_and_stamped_by_name
    [⟨"V9", .resistor, ⟨100, 1⟩, "", [1, 0]⟩, ⟨"R1", .resistor, ⟨50, 1⟩, "", [1, 2]⟩]
    3 3 [("V9", 2)] (fun _ _ => fZero, fun _ => fZero)
    ⟨"V9", .resistor, ⟨100, 1⟩, "", [1, 0]⟩
    (by decide) (by decide) (Or.inl rfl)

/-! ## C10 — all matrix writes are bounds-guarded -/

theorem addMatrixEntry_out {N r c : Int} (h : ¬(0 ≤ r ∧ r < N ∧ 0 ≤ c ∧ c < N))
    (G : MatF) (row col : Int) (v : Frac) :
    addMatrixEntry N G row col v r c = G r c := by
  unfold addMatrixEntry
  by_cases hcond : 0 ≤ row ∧ row < N ∧ 0 ≤ col ∧ col < N
  · rw [if_pos hcond]
    show (if r = row ∧ c = col then G r c + v else G r c) = G r c
    rw [if_neg (fun hrc => by
      rcases hrc with ⟨h1, h2⟩
      subst h1
      subst h2
      exact h hcond)]
  · rw [if_neg hcond]

theorem addResistorStamp_out {N r c : Int} (h : ¬(0 ≤ r ∧ r < N ∧ 0 ≤ c ∧ c < N))
    (numNodes n1 n2 : Int) (g : Frac) (G : MatF) :
    addResistorStamp numNodes N n1 n2 g G r c = G r c := by
  simp only [addResistorStamp]
  split_ifs <;> simp [addMatrixEntry_out h]

theorem addVoltageSource_out {N r c : Int} (h : ¬(0 ≤ r ∧ r < N ∧ 0 ≤ c ∧ c < N))
    (numNodes : Int) (vsIdx : List (String × Int)) (e : Element) (G : MatF) (b : VecF) :
    (addVoltageSource numNodes N vsIdx e G b).1 r c = G r c := by
  simp only [addVoltageSource]
  cases lookupAssoc vsIdx e.name
  · rfl
  · simp only []
    split_ifs <;> simp [addMatrixEntry_out h]

theorem addDiode_out {N r c : Int} (h : ¬(0 ≤ r ∧ r < N ∧ 0 ≤ c ∧ c < N))
    (numNodes : Int) (e : Element) (G : MatF) (b : VecF) :
    (addDiode numNodes N e G b).1 r c = G r c := by
  simp only [addDiode]
  split_ifs <;> simp [addMatrixEntry_out h]

theorem addMOSFET_out {N r c : Int} (h : ¬(0 ≤ r ∧ r < N ∧ 0 ≤ c ∧ c < N))
    (numNodes : Int) (e : Element) (G : MatF) :
    addMOSFET numNodes N e G r c = G r c := by
  simp only [addMOSFET]
  split_ifs <;> simp [addMatrixEntry_out h]

theorem stampDCElement_out {r c : Int} (numNodes N : Int)
    (h : ¬(0 ≤ r ∧ r < N ∧ 0 ≤ c ∧ c < N))
    (vsIdx : List (String × Int)) (Gb : MatF × VecF) (e : Element) :
    (stampDCElement numNodes N vsIdx Gb e).1 r c = Gb.1 r c := by
  simp only [stampDCElement]
  split_ifs
  · rfl
  · exact addResistorStamp_out h _ _ _ _ _
  · exact addVoltageSource_out h _ _ _ _ _
  · rfl
  · exact addResistorStamp_out h _ _ _ _ _
  · exact addDiode_out h _ _ _ _
  · cases e.tag <;> first | rfl | exact addMOSFET_out h _ _ _
  · rfl

theorem addCapacitorTr_out {N r c : Int} (h : ¬(0 ≤ r ∧ r < N ∧ 0 ≤ c ∧ c < N))
    (numNodes : Int) (stepT : Frac) (xPrev : List Frac) (e : Element) (G : MatF) (b : VecF) :
    (addCapacitorTr numNodes N stepT xPrev e G b).1 r c = G r c := by
  simp only [addCapacitorTr]
  split_ifs <;> simp [addMatrixEntry_out h]

theorem addInductorTr_out {N r c : Int} (h : ¬(0 ≤ r ∧ r < N ∧ 0 ≤ c ∧ c < N))
    (numNodes : Int) (stepT : Frac) (e : Element) (G : MatF) (b : VecF) :
    (addInductorTr numNodes N stepT e G b).1 r c = G r c := by
  simp only [addInductorTr]
  split_ifs <;> simp [addMatrixEntry_out h]

theorem addDiodeTr_out {N r c : Int} (h : ¬(0 ≤ r ∧ r < N ∧ 0 ≤ c ∧ c < N))
    (rexp : Frac → Frac) (numNodes : Int) (xPrev : List Frac) (e : Element)
    (G : MatF) (b : VecF) :
    (addDiodeTr rexp numNodes N xPrev e G b).1 r c = G r c := by
  simp only [addDiodeTr]
  split_ifs <;> simp [addMatrixEntry_out h]

theorem mosfetStampDG_out {N r c : Int} (h : ¬(0 ≤ r ∧ r < N ∧ 0 ≤ c ∧ c < N))
    (numNodes nd ng : Int) (gm : Frac) (G : MatF) :
    mosfetStampDG numNodes N nd ng gm G r c = G r c := by
  simp only [mosfetStampDG]
  split_ifs <;> simp [addMatrixEntry_out h]

theorem mosfetStampDS_out {N r c : Int} (h : ¬(0 ≤ r ∧ r < N ∧ 0 ≤ c ∧ c < N))
    (numNodes nd ns : Int) (gm : Frac) (G : MatF) :
    mosfetStampDS numNodes N nd ns gm G r c = G r c := by
  simp only [mosfetStampDS]
  split_ifs <;> simp [addMatrixEntry_out h]

theorem mosfetStampGds_out {N r c : Int} (h : ¬(0 ≤ r ∧ r < N ∧ 0 ≤ c ∧ c < N))
    (numNodes nd ns : Int) (gds cs : Frac) (G : MatF) (b : VecF) :
    (mosfetStampGds numNodes N nd ns gds cs G b).1 r c = G r c := by
  simp only [mosfetStampGds]
  split_ifs <;> simp [addMatrixEntry_out h]

theorem mosfetStampSG_out {N r c : Int} (h : ¬(0 ≤ r ∧ r < N ∧ 0 ≤ c ∧ c < N))
    (numNodes ns ng : Int) (gm : Frac) (G : MatF) :
    mosfetStampSG numNodes N ns ng gm G r c = G r c := by
  simp only [mosfetStampSG]
  split_ifs <;> simp [addMatrixEntry_out h]

theorem mosfetStampSS_out {N r c : Int} (h : ¬(0 ≤ r ∧ r < N ∧ 0 ≤ c ∧ c < N))
    (numNodes ns : Int) (gm : Frac) (G : MatF) :
    mosfetStampSS numNodes N ns gm G r c = G r c := by
  simp only [mosfetStampSS]
  split_ifs <;> simp [addMatrixEntry_out h]

theorem addMOSFETTr_out {N r c : Int} (h : ¬(0 ≤ r ∧ r < N ∧ 0 ≤ c ∧ c < N))
    (numNodes : Int) (xPrev : List Frac) (e : Element) (G : MatF) (b : VecF) :
    (addMOSFETTr numNodes N xPrev e G b).1 r c = G r c := by
  show mosfetStampSS numNodes N _ _ (mosfetStampSG numNodes N _ _ _ _) r c = G r c
  rw [mosfetStampSS_out h, mosfetStampSG_out h, mosfetStampGds_out h,
    mosfetStampDS_out h, mosfetStampDG_out h]

theorem stampTrElement_out {r c : Int} (rexp : Frac → Frac) (numNodes N : Int)
    (h : ¬(0 ≤ r ∧ r < N ∧ 0 ≤ c ∧ c < N))
    (vsIdx : List (String × Int)) (stepT : Frac) (xPrev : List Frac)
    (Gb : MatF × VecF) (e : Element) :
    (stampTrElement rexp numNodes N vsIdx stepT xPrev Gb e).1 r c = Gb.1 r c := by
  simp only [stampTrElement]
  split_ifs
  · rfl
  · exact addResistorStamp_out h _ _ _ _ _
  · exact addCapacitorTr_out h _ _ _ _ _ _
  · exact addInductorTr_out h _ _ _ _ _
  · exact addVoltageSource_out h _ _ _ _ _
  · exact addDiodeTr_out h _ _ _ _ _ _
  · cases e.tag <;> first | rfl | exact addMOSFETTr_out h _ _ _ _ _
  · rfl

/-- Claim C10: every write to the MNA matrix goes through the bounds-guarded
`addMatrixEntry`, so building the system — in the DC engine and in the
transient engine alike — never touches any entry outside `[0, N) × [0, N)`
(`N = matrixSize`), whatever the elements' pin node ids are (`−1`, `0`, or
`≥ numNodes` included): the out-of-range contributions are simply dropped and
those entries keep their cleared value `0`. -/
theorem mna_build_writes_stay_in_bounds
    (rexp : Frac → Frac) (elems : List Element) (numNodes : Int)
    (vsIdx : List (String × Int)) (stepT : Frac) (xPrev : List Frac) (r c : Int)
    (hout : ¬(0 ≤ r ∧ r < matrixSize elems numNodes ∧
      0 ≤ c ∧ c < matrixSize elems numNodes)) :
    (buildMNAMatrixDC elems numNodes).1 r c = fZero ∧
    (buildMNAMatrixTr rexp elems numNodes (matrixSize elems numNodes) vsIdx stepT xPrev).1
      r c = fZero := by
  have hfoldDC : ∀ (l : List Element) (Gb : MatF × VecF),
      (l.foldl (stampDCElement numNodes (matrixSize elems numNodes)
        (buildVSIndex elems numNodes).1) Gb).1 r c = Gb.1 r c := by
    intro l
    induction l with
    | nil => intro Gb; rfl
    | cons e t ih =>
      intro Gb
      rw [List.foldl_cons, ih]
      exact stampDCElement_out _ _ hout _ _ _
  have hfoldTr : ∀ (l : List Element) (Gb : MatF × VecF),
      (l.foldl (stampTrElement rexp numNodes (matrixSize elems numNodes) vsIdx stepT xPrev)
        Gb).1 r c = Gb.1 r c := by
    intro l
    induction l with
    | nil => intro Gb; rfl
    | cons e t ih =>
      intro Gb
      rw [List.foldl_cons, ih]
      exact stampTrElement_out rexp _ _ hout _ _ _ _ _
  constructor
  · unfold buildMNAMatrixDC
    exact hfoldDC elems _
  · unfold buildMNAMatrixTr
    exact hfoldTr elems _

/-- Witness for C10: a resistor with pin nodes `−1` and `5` in a two-node,
size-1 system leaves the out-of-range entry `(−1, 0)` at zero in both
engines. -/
theorem mna_build_writes_stay_in_bounds_witness :
    (buildMNAMatrixDC [⟨"R1", .resistor, ⟨1000, 1⟩, "", [-1, 5]⟩] 2).1 (-1) 0 = fZero ∧
    (buildMNAMatrixTr expZero [⟨"R1", .resistor, ⟨1000, 1⟩, "", [-1, 5]⟩] 2
      (matrixSize [⟨"R1", .resistor, ⟨1000, 1⟩, "", [-1, 5]⟩] 2) [] fOne []).1 (-1) 0 = fZero :=
  mna_build_writes_stay_in_bounds expZero [⟨"R1", .resistor, ⟨1000, 1⟩, "", [-1, 5]⟩]
    2 [] fOne [] (-1) 0 (by decide)

/-! ## C1, C2 — the transient loop -/

theorem stepOnce_spec (rexp : Frac → Frac) (elems : List Element) (numNodes N : Int)
    (vsIdx : List (String × Int)) (settings : TranSettings) (st st' : TranState)
    (h : stepOnce rexp elems numNodes N vsIdx settings st = some st') :
    st'.t = st.t + settings.stepTime ∧ ∃ p, st'.results = st.results ++ [p] := by
  simp only [stepOnce] at h
  split at h
  · exact absurd h (by simp)
  · injection h with h2
    subst h2
    exact ⟨rfl, _, rfl⟩

theorem iterSteps_spec (rexp : Frac → Frac) (elems : List Element) (numNodes N : Int)
    (vsIdx : List (String × Int)) (settings : TranSettings) :
    ∀ (k : Nat) (st st' : TranState),
      iterSteps rexp elems numNodes N vsIdx settings k st = some st' →
      st'.t = addSteps settings.stepTime k st.t ∧
      ∃ l, st'.results = st.results ++ l ∧ l.length = k := by
  intro k
  induction k with
  | zero =>
    intro st st' h
    simp only [iterSteps] at h
    injection h with h2
    subst h2
    exact ⟨rfl, [], by simp, rfl⟩
  | succ k ih =>
    intro st st' h
    simp only [iterSteps] at h
    split at h
    · split at h
      · exact absurd h (by simp)
      · rename_i st1 hstep
        obtain ⟨ht1, l, hres1, hlen1⟩ := ih st1 st' h
        obtain ⟨ht0, p, hres0⟩ := stepOnce_spec rexp elems numNodes N vsIdx settings st st1 hstep
        refine ⟨?_, p :: l, ?_, ?_⟩
        · rw [ht1, ht0]
          rfl
        · rw [hres1, hres0]
          simp
        · simp [hlen1]
    · exact absurd h (by simp)

theorem tranLoop_exit (rexp : Frac → Frac) (elems : List Element) (numNodes N : Int)
    (vsIdx : List (String × Int)) (settings : TranSettings) (fuel : Nat) (st : TranState)
    (hguard : Frac.blt st.t settings.stopTime = false) :
    tranLoop rexp elems numNodes N vsIdx settings fuel st = st := by
  cases fuel <;> simp [tranLoop, hguard]

theorem tranLoop_break (rexp : Frac → Frac) (elems : List Element) (numNodes N : Int)
    (vsIdx : List (String × Int)) (settings : TranSettings) (fuel : Nat) (st : TranState)
    (hguard : Frac.blt st.t settings.stopTime = true)
    (hfail : stepOnce rexp elems numNodes N vsIdx settings st = none)
    (hfuel : 1 ≤ fuel) :
    tranLoop rexp elems numNodes N vsIdx settings fuel st = st := by
  obtain ⟨f, rfl⟩ : ∃ f, fuel = f + 1 := ⟨fuel - 1, by omega⟩
  simp [tranLoop, hguard, hfail]

theorem tranLoop_of_iterSteps (rexp : Frac → Frac) (elems : List Element) (numNodes N : Int)
    (vsIdx : List (String × Int)) (settings : TranSettings) :
    ∀ (k fuel : Nat) (st st' : TranState),
      iterSteps rexp elems numNodes N vsIdx settings k st = some st' →
      k ≤ fuel →
      tranLoop rexp elems numNodes N vsIdx settings fuel st =
        tranLoop rexp elems numNodes N vsIdx settings (fuel - k) st' := by
  intro k
  induction k with
  | zero =>
    intro fuel st st' h _
    simp only [iterSteps] at h
    injection h with h2
    subst h2
    rfl
  | succ k ih =>
    intro fuel st st' h hfuel
    simp only [iterSteps] at h
    split at h
    · rename_i hguard
      split at h
      · exact absurd h (by simp)
      · rename_i st1 hstep
        obtain ⟨f, rfl⟩ : ∃ f, fuel = f + 1 := ⟨fuel - 1, by omega⟩
        have hloop : tranLoop rexp elems numNodes N vsIdx settings (f + 1) st =
            tranLoop rexp elems numNodes N vsIdx settings f st1 := by
          simp [tranLoop, hguard, hstep]
        rw [hloop, ih f st1 st' h (by omega)]
        congr 1
        omega
    · exact absurd h (by simp)

/-- Claim C2: whenever Gaussian elimination reports a singular pivot at a
time step (after `k` successful steps), the transient solver stops the
analysis right there and the result log is exactly what had been saved
before: the initial point plus one point per successful step, unchanged. -/
theorem tran_singular_pivot_stops_preserving_log
    (rexp : Frac → Frac) (elems : List Element) (numNodes : Int)
    (settings : TranSettings) (fuel k : Nat) (st' : TranState)
    (hiter : iterSteps rexp elems numNodes (matrixSize elems numNodes)
      (buildVSIndex elems numNodes).1 settings k
      (tranInitState elems numNodes settings) = some st')
    (hguard : Frac.blt st'.t settings.stopTime = true)
    (hfail : stepOnce rexp elems numNodes (matrixSize elems numNodes)
      (buildVSIndex elems numNodes).1 settings st' = none)
    (hfuel : k < fuel) :
    tranSolve rexp elems numNodes settings fuel = st' ∧
    ∃ l, st'.results = (tranInitState elems numNodes settings).results ++ l ∧
      l.length = k ∧ st'.results.length = k + 1 := by
  have hinit1 : (tranInitState elems numNodes settings).results.length = 1 := rfl
  obtain ⟨_, l, hres, hlen⟩ := iterSteps_spec rexp elems numNodes
    (matrixSize elems numNodes) (buildVSIndex elems numNodes).1 settings k _ st' hiter
  constructor
  · unfold tranSolve
    rw [tranLoop_of_iterSteps rexp elems numNodes (matrixSize elems numNodes)
      (buildVSIndex elems numNodes).1 settings k fuel _ st' hiter (Nat.le_of_lt hfuel)]
    exact tranLoop_break rexp elems numNodes (matrixSize elems numNodes)
      (buildVSIndex elems numNodes).1 settings (fuel - k) st' hguard hfail (by omega)
  · refine ⟨l, hres, hlen, ?_⟩
    rw [hres, List.length_append, hinit1, hlen]
    omega

/-- Witness for C2: `V1 1 1 5` makes every step's matrix singular, so the
first step fails (`k = 0`) and the log keeps exactly the initial point. -/
theorem tran_singular_pivot_witness :
    tranSolve expZero singularTranCircuit 2 tranDirectiveSettings 11 =
      tranInitState singularTranCircuit 2 tranDirectiveSettings ∧
    ∃ l, (tranInitState singularTranCircuit 2 tranDirectiveSettings).results =
      (tranInitState singularTranCircuit 2 tranDirectiveSettings).results ++ l ∧
      l.length = 0 ∧
      (tranInitState singularTranCircuit 2 tranDirectiveSettings).results.length = 0 + 1 :=
  tran_singular_pivot_stops_preserving_log expZero singularTranCircuit 2
    tranDirectiveSettings 11 0 (tranInitState singularTranCircuit 2 tranDirectiveSettings)
    rfl (by decide) (by decide) (by omega)

/-- Claim C1 (counterexample): the claim promises exactly 11 TimePoints for
*every* parsed circuit with at least one element, but the (legally parsed)
one-element circuit `V1 1 1 5` yields a singular matrix at the first step, so
`.tran 1u 10u` logs only the initial point. -/
theorem tran_eleven_points_counterexample :
    (parseComponent initParserState ["V1", "1", "1", "5"]).state.elements =
      singularTranCircuit ∧
    (parseComponent initParserState ["V1", "1", "1", "5"]).state.numNodes = 2 ∧
    (tranSolve expZero singularTranCircuit 2 tranDirectiveSettings 11).results.length = 1 := by
  decide

/-- Claim C1 (amended): for the directive `.tran 1u 10u` (step
`parseValue "1u" = 1e-6`, stop `parseValue "10u" = 1e-5`, start 0), if every
per-step Gaussian elimination succeeds, the transient run saves exactly 11
TimePoints — the initial point at time 0 plus one point for each of the ten
iterations of `while (t < stop)` — and the first point has time 0.  When a
step fails the log is cut short at the failure (counterexample; claim C2). -/
theorem tran_eleven_points_when_steps_succeed
    (rexp : Frac → Frac) (elems : List Element) (numNodes : Int) (fuel : Nat)
    (st' : TranState)
    (hiter : iterSteps rexp elems numNodes (matrixSize elems numNodes)
      (buildVSIndex elems numNodes).1 tranDirectiveSettings 10
      (tranInitState elems numNodes tranDirectiveSettings) = some st')
    (hfuel : 10 ≤ fuel) :
    (tranSolve rexp elems numNodes tranDirectiveSettings fuel).results.length = 11 ∧
    ((tranSolve rexp elems numNodes tranDirectiveSettings fuel).results.map
      TimePoint.time).head? = some fZero := by
  obtain ⟨ht, l, hres, hlen⟩ := iterSteps_spec rexp elems numNodes
    (matrixSize elems numNodes) (buildVSIndex elems numNodes).1 tranDirectiveSettings
    10 _ st' hiter
  have hend : tranSolve rexp elems numNodes tranDirectiveSettings fuel = st' := by
    unfold tranSolve
    rw [tranLoop_of_iterSteps rexp elems numNodes (matrixSize elems numNodes)
      (buildVSIndex elems numNodes).1 tranDirectiveSettings 10 fuel _ st' hiter hfuel]
    apply tranLoop_exit
    rw [ht]
    have hT : (tranInitState elems numNodes tranDirectiveSettings).t = fZero := rfl
    rw [hT]
    decide
  have hinit1 : (tranInitState elems numNodes tranDirectiveSettings).results.length = 1 := rfl
  have hinitT : (tranInitState elems numNodes tranDirectiveSettings).results.map
      TimePoint.time = [fZero] := rfl
  constructor
  · rw [hend, hres, List.length_append, hinit1, hlen]
  · rw [hend, hres, List.map_append, hinitT]
    rfl

/-- Witness for the amended C1 theorem: `R1 1 0 1k` (the parsed circuit of a
single resistor) succeeds at every step and logs 11 points, the first at
time 0. -/
theorem tran_eleven_points_witness :
    (tranSolve expZero resistorTranCircuit 2 tranDirectiveSettings 10).results.length = 11 ∧
    ((tranSolve expZero resistorTranCircuit 2 tranDirectiveSettings 10).results.map
      TimePoint.time).head? = some fZero := by
  obtain ⟨st', hst⟩ : ∃ st', iterSteps expZero resistorTranCircuit 2
      (matrixSize resistorTranCircuit 2) (buildVSIndex resistorTranCircuit 2).1
      tranDirectiveSettings 10 (tranInitState resistorTranCircuit 2 tranDirectiveSettings)
      = some st' := ⟨_, rfl⟩
  exact tran_eleven_points_when_steps_succeed expZero resistorTranCircuit 2 10 st' hst
    (le_refl 10)
